import Mathlib

/-
Shallow embedding of the kv-emulator (a KV-SSD FTL emulator) core:
flash page store, translation pages and global mapping directory (GMD),
cached mapping table (CMT), garbage collector and the KVSSD orchestrator,
together with the KVPack inlining policies.

Conventions used throughout the embedding:
* Python machine integers are modelled by Nat (counters that never go
  negative in the source) or Int (fields the source may decrement or that
  use the -1 sentinel).
* Python floats that only ever hold exact small decimals (thresholds,
  ratios, latencies) are modelled by exact unnormalized fractions (Frac).
* Python dicts that the source iterates in insertion order are modelled by
  association lists (List (key × value)) kept in insertion order.
* Python exceptions (RuntimeError "flash full", KeyError from popping an
  empty OrderedDict) are modelled by Except / Option results.
* Keys are represented by their key hash together with their length:
  compute_key_hash is a fixed deterministic function of the key bytes and
  the core logic depends on the key only through (key_hash, key_size).
-/

namespace KVEmu


/-- Exact fractions standing in for the Python floats of the source
(thresholds, utilizations, rates, latencies), which only ever hold exact
small decimals here. They are kept unnormalized so that every operation
is a plain structural computation; every denominator built by the
embedding is positive, and comparisons cross-multiply. -/
structure Frac where
  num : Int
  den : Int
deriving DecidableEq

instance : OfNat Frac n := ⟨⟨n, 1⟩⟩

namespace Frac

/-- Embed a natural number. -/
def ofNat (n : Nat) : Frac := ⟨n, 1⟩

/-- Embed an integer. -/
def ofInt (i : Int) : Frac := ⟨i, 1⟩

/-- Fraction division (used only with positive denominators). -/
def div (a b : Frac) : Frac := ⟨a.num * b.den, a.den * b.num⟩

/-- Fraction multiplication. -/
def mul (a b : Frac) : Frac := ⟨a.num * b.num, a.den * b.den⟩

/-- Fraction addition. -/
def add (a b : Frac) : Frac := ⟨a.num * b.den + b.num * a.den, a.den * b.den⟩

/-- Order by cross-multiplication (the rational order for positive
denominators, which is the only way the embedding builds fractions). -/
def le (a b : Frac) : Prop := a.num * b.den ≤ b.num * a.den

instance : LE Frac := ⟨Frac.le⟩

instance : DecidableRel (α := Frac) (· ≤ ·) := fun a b =>
  inferInstanceAs (Decidable (a.num * b.den ≤ b.num * a.den))

/-- Python int() truncation for the non-negative values it is applied to. -/
def floorToNat (a : Frac) : Nat := a.num.toNat / a.den.toNat

end Frac

/-- Truncating Nat division computed by structural recursion on a fuel
argument (enough fuel = the dividend). Equal to Nat division — see
sdiv_eq_div — but reduces by plain iota steps, which keeps every state
computation of the embedding evaluable. -/
def sdivAux : Nat → Nat → Nat → Nat
  | 0, _, _ => 0
  | fuel + 1, a, b => if b ≤ a then sdivAux fuel (a - b) b + 1 else 0

/-- Structural Nat division (0 for divisor 0, like Nat division). -/
def sdiv (a b : Nat) : Nat := if b = 0 then 0 else sdivAux a a b

/-- Structural Nat remainder companion of sdiv — see smod_eq_mod. -/
def smodAux : Nat → Nat → Nat → Nat
  | 0, a, _ => a
  | fuel + 1, a, b => if b ≤ a then smodAux fuel (a - b) b else a

/-- Structural Nat remainder (a for divisor 0, like Nat mod). -/
def smod (a b : Nat) : Nat := if b = 0 then a else smodAux a a b

/-- Errors surfaced by the emulator: RuntimeError("flash full") raised by
Flash.allocate_page / KVSSD._allocate_with_gc, and the KeyError raised by
CMT.insert when it pops from an empty OrderedDict. -/
inductive Err where
  | flashFull
  | keyError
deriving DecidableEq

/-- Page types tracked by Flash._page_types ("data" / "translation"). -/
inductive PageType where
  | data
  | translation
deriving DecidableEq

/-- MappingEntry from src/mapping.py: key_hash, key_size, value_size,
is_inline, data_page_id (-1 if inline), frames_used. -/
structure MappingEntry where
  keyHash : Nat
  keySize : Nat
  valueSize : Nat
  isInline : Bool
  dataPageId : Int
  framesUsed : Nat
deriving DecidableEq

/-- Metrics from src/metrics.py (counters, per-request scratch counter,
histogram of GET flash reads, per-GET latency list). -/
structure Metrics where
  tpReads : Nat := 0
  dataReads : Nat := 0
  flashWrites : Nat := 0
  flashErases : Nat := 0
  cmtHits : Nat := 0
  cmtMisses : Nat := 0
  totalPuts : Nat := 0
  totalGets : Nat := 0
  totalDeletes : Nat := 0
  inlineEntries : Int := 0
  regularEntries : Int := 0
  inlineToRegular : Nat := 0
  gcInvocations : Nat := 0
  gcPagesCopied : Nat := 0
  hostWrites : Nat := 0
  requestFlashReads : Nat := 0
  readsByFlashCount : Nat → Nat := fun _ => 0
  getLatencies : List Frac := []
  readLatencyUs : Frac := 45

namespace Metrics

/-- Metrics.total_flash_reads. -/
def totalFlashReads (m : Metrics) : Nat := m.tpReads + m.dataReads

/-- Metrics.cmt_hit_rate. -/
def cmtHitRate (m : Metrics) : Frac :=
  if m.cmtHits + m.cmtMisses = 0 then 0
  else (Frac.ofNat m.cmtHits).div (Frac.ofNat (m.cmtHits + m.cmtMisses))

/-- Metrics.inline_ratio (event counts, not live entries). -/
def inlineFrac (m : Metrics) : Frac :=
  if m.inlineEntries + m.regularEntries = 0 then 0
  else (Frac.ofInt m.inlineEntries).div (Frac.ofInt (m.inlineEntries + m.regularEntries))

/-- Metrics.waf (flash_writes / host_writes, 0 when no host writes). -/
def waf (m : Metrics) : Frac :=
  if m.hostWrites = 0 then 0 else (Frac.ofNat m.flashWrites).div (Frac.ofNat m.hostWrites)

/-- Metrics.begin_request: reset the per-request flash read counter. -/
def beginRequest (m : Metrics) : Metrics := { m with requestFlashReads := 0 }

/-- Metrics.record_flash_read: bump the scratch counter and the tp/data
read counter according to the page type. -/
def recordFlashRead (m : Metrics) (ty : PageType) : Metrics :=
  let m := { m with requestFlashReads := m.requestFlashReads + 1 }
  match ty with
  | .translation => { m with tpReads := m.tpReads + 1 }
  | .data => { m with dataReads := m.dataReads + 1 }

/-- Metrics.end_get_request: record the histogram bucket and the latency
(count * read_latency_us) for the finished GET. -/
def endGetRequest (m : Metrics) : Metrics :=
  let c := m.requestFlashReads
  { m with
    readsByFlashCount := fun k => if k = c then m.readsByFlashCount c + 1 else m.readsByFlashCount k
    getLatencies := m.getLatencies ++ [(Frac.ofNat c).mul m.readLatencyUs] }

end Metrics

/-- Association-list lookup in insertion order (Python dict access). -/
def alistFind (l : List (Nat × α)) (k : Nat) : Option α :=
  (l.find? (fun p => p.1 = k)).map (·.2)

/-- Association-list removal of a key (Python dict.pop). -/
def alistErase (l : List (Nat × α)) (k : Nat) : List (Nat × α) :=
  l.filter (fun p => ¬ p.1 = k)

/-- In-place value replacement for an existing key, preserving its
position (Python dict assignment to an existing key). -/
def alistSet (l : List (Nat × α)) (k : Nat) (v : α) : List (Nat × α) :=
  match l with
  | [] => []
  | (k', v') :: rest => if k' = k then (k, v) :: rest else (k', v') :: alistSet rest k v

/-- Python dict assignment: replace in place if the key exists, else
append at the end. -/
def alistPut (l : List (Nat × α)) (k : Nat) (v : α) : List (Nat × α) :=
  if (alistFind l k).isSome then alistSet l k v else l ++ [(k, v)]

/-- Flash from src/flash.py: occupied / valid page id sets, the page
type dict (readers default an absent page to "data", matching
`_page_types.get(pid, "data")`), rolling allocation cursor and per-block
erase counts. -/
structure Flash where
  totalPages : Nat
  pagesPerBlock : Nat
  occupied : Finset Nat
  valid : Finset Nat
  pageTypes : List (Nat × PageType)
  nextPage : Nat
  eraseCounts : Nat → Nat

namespace Flash

/-- Flash.total_blocks. -/
def totalBlocks (f : Flash) : Nat := f.totalPages / f.pagesPerBlock

/-- Flash.read_page: no side effect besides the metrics increment (the
page id argument is unused in the source). -/
def readPage (f : Flash) (m : Metrics) (_pid : Int) (ty : PageType) : Flash × Metrics :=
  (f, m.recordFlashRead ty)

/-- Flash.write_page: count one flash write, mark the page occupied and
valid and record its type. -/
def writePage (f : Flash) (m : Metrics) (pid : Nat) (ty : PageType) : Flash × Metrics :=
  ({ f with
      occupied := insert pid f.occupied
      valid := insert pid f.valid
      pageTypes := alistPut f.pageTypes pid ty },
   { m with flashWrites := m.flashWrites + 1 })

/-- Loop body of Flash.allocate_page: advance the cursor past occupied
pages, failing once the cursor wraps around to its starting point. -/
def allocateLoop (f : Flash) (start cur fuel : Nat) : Option (Nat × Nat) :=
  match fuel with
  | 0 => none
  | fuel + 1 =>
    if cur ∈ f.occupied then
      let c := smod (cur + 1) f.totalPages
      if c = start then none else f.allocateLoop start c fuel
    else
      some (cur, smod (cur + 1) f.totalPages)

/-- Flash.allocate_page: sequential search from the rolling cursor for a
page id not in `occupied`; none models RuntimeError("flash full"). -/
def allocatePage (f : Flash) : Option (Nat × Flash) :=
  match f.allocateLoop f.nextPage f.nextPage (f.totalPages + 1) with
  | none => none
  | some (pid, nxt) => some (pid, { f with nextPage := nxt })

/-- Flash.free_page: remove the page from the valid set only. -/
def freePage (f : Flash) (pid : Nat) : Flash :=
  { f with valid := f.valid.erase pid }

/-- Flash.erase_block: clear occupied / valid / page types across the
block's page range, bump the erase counters. -/
def eraseBlock (f : Flash) (m : Metrics) (bid : Nat) : Flash × Metrics :=
  let start := bid * f.pagesPerBlock
  ({ f with
      occupied := f.occupied.filter (fun p => ¬(start ≤ p ∧ p < start + f.pagesPerBlock))
      valid := f.valid.filter (fun p => ¬(start ≤ p ∧ p < start + f.pagesPerBlock))
      pageTypes := f.pageTypes.filter (fun p => ¬(start ≤ p.1 ∧ p.1 < start + f.pagesPerBlock))
      eraseCounts := fun b => if b = bid then f.eraseCounts b + 1 else f.eraseCounts b },
   { m with flashErases := m.flashErases + 1 })

/-- Flash.get_block_id. -/
def getBlockId (f : Flash) (pid : Nat) : Nat := pid / f.pagesPerBlock

/-- Flash.valid_pages_in_block: the valid pages of the block in ascending
page order, with their types. -/
def validPagesInBlock (f : Flash) (bid : Nat) : List (Nat × PageType) :=
  ((List.range f.pagesPerBlock).map (fun i => bid * f.pagesPerBlock + i)).filterMap
    (fun pid => if pid ∈ f.valid then some (pid, (alistFind f.pageTypes pid).getD .data) else none)

/-- Flash.invalid_count_in_block: pages occupied but not valid. -/
def invalidCountInBlock (f : Flash) (bid : Nat) : Nat :=
  (((List.range f.pagesPerBlock).map (fun i => bid * f.pagesPerBlock + i)).filter
    (fun pid => pid ∈ f.occupied ∧ pid ∉ f.valid)).length

/-- Flash.utilization: physical occupancy, the GC trigger signal. -/
def utilization (f : Flash) : Frac :=
  if f.totalPages = 0 then 0
  else (Frac.ofNat f.occupied.card).div (Frac.ofNat f.totalPages)

end Flash

/-- TranslationPage from src/mapping.py: insertion-ordered entry map with
precomputed used_frames / num_inline and the backing flash page id.
The flash page id is assigned from Flash.allocate_page at materialization
(GMD.get_or_create_tp), so the -1 placeholder of the Python constructor is
never observable and the field is a Nat here. -/
structure TranslationPage where
  tpId : Nat
  totalFrames : Nat
  usedFrames : Int
  entries : List (Nat × MappingEntry)
  numInline : Int
  flashPageId : Nat
deriving DecidableEq

namespace TranslationPage

/-- TranslationPage.free_frames. -/
def freeFrames (t : TranslationPage) : Int := (t.totalFrames : Int) - t.usedFrames

/-- TranslationPage.num_entries. -/
def numEntries (t : TranslationPage) : Nat := t.entries.length

/-- TranslationPage.utilization. -/
def utilization (t : TranslationPage) : Frac :=
  if 0 < t.totalFrames then (Frac.ofInt t.usedFrames).div (Frac.ofNat t.totalFrames) else 0

/-- TranslationPage.inline_ratio (source name inline_ratio). -/
def inlineFrac (t : TranslationPage) : Frac :=
  if 0 < t.numEntries then (Frac.ofInt t.numInline).div (Frac.ofNat t.numEntries) else 0

/-- TranslationPage.has_space. -/
def hasSpace (t : TranslationPage) (framesNeeded : Nat) : Bool :=
  (framesNeeded : Int) ≤ t.freeFrames

/-- TranslationPage.find. -/
def find (t : TranslationPage) (keyHash : Nat) : Option MappingEntry :=
  alistFind t.entries keyHash

/-- TranslationPage.remove: pop the entry if present, adjusting
used_frames and num_inline. -/
def remove (t : TranslationPage) (keyHash : Nat) : TranslationPage × Option MappingEntry :=
  match t.find keyHash with
  | none => (t, none)
  | some e =>
    ({ t with
        entries := alistErase t.entries keyHash
        usedFrames := t.usedFrames - e.framesUsed
        numInline := t.numInline - (if e.isInline then 1 else 0) },
     some e)

/-- TranslationPage.insert: remove any existing entry for the key first,
then append the new entry (Python dict insertion puts it last). -/
def insert (t : TranslationPage) (e : MappingEntry) : TranslationPage :=
  let t := if (t.find e.keyHash).isSome then (t.remove e.keyHash).1 else t
  { t with
      entries := t.entries ++ [(e.keyHash, e)]
      usedFrames := t.usedFrames + e.framesUsed
      numInline := t.numInline + (if e.isInline then 1 else 0) }

/-- TranslationPage.evict_one_inline: remove and return the first inline
entry in insertion order, if any. -/
def evictOneInline (t : TranslationPage) : TranslationPage × Option MappingEntry :=
  match t.entries.find? (fun p => p.2.isInline) with
  | none => (t, none)
  | some p => t.remove p.1

end TranslationPage

/-- GMD from src/mapping.py: the lazily materialized translation pages in
creation order, plus the config-derived scalars it reads
(num_translation_pages, frames_per_tp, max_retry, entry_size). -/
structure GMD where
  numTps : Nat
  framesPerTp : Nat
  maxRetry : Nat
  entrySize : Nat
  pages : List (Nat × TranslationPage)
deriving DecidableEq

namespace GMD

/-- GMD._get_tp_id: quadratic probing. -/
def getTpId (g : GMD) (keyHash retry : Nat) : Nat :=
  smod (keyHash + retry * retry) g.numTps

/-- GMD.get_tp. -/
def getTp (g : GMD) (tpId : Nat) : Option TranslationPage :=
  alistFind g.pages tpId

/-- Store back a translation page under its own id (Python mutates the
object held in _pages in place). -/
def setTp (g : GMD) (t : TranslationPage) : GMD :=
  { g with pages := alistSet g.pages t.tpId t }

/-- GMD.get_or_create_tp: materialize the page if absent, allocating its
flash page id; none models the uncaught RuntimeError("flash full") from
Flash.allocate_page. -/
def getOrCreateTp (g : GMD) (f : Flash) (tpId : Nat) :
    Option (TranslationPage × GMD × Flash) :=
  match g.getTp tpId with
  | some t => some (t, g, f)
  | none =>
    match f.allocatePage with
    | none => none
    | some (pid, f) =>
      let t : TranslationPage :=
        { tpId := tpId, totalFrames := g.framesPerTp, usedFrames := 0,
          entries := [], numInline := 0, flashPageId := pid }
      some (t, { g with pages := g.pages ++ [(tpId, t)] }, f)

/-- Probe loop of GMD.find_entry, starting at probe index r with the given
remaining fuel. -/
def findEntryFrom (g : GMD) (keyHash r fuel : Nat) :
    Option (TranslationPage × MappingEntry) :=
  match fuel with
  | 0 => none
  | fuel + 1 =>
    match g.getTp (g.getTpId keyHash r) with
    | none => none
    | some t =>
      match t.find keyHash with
      | some e => some (t, e)
      | none => g.findEntryFrom keyHash (r + 1) fuel

/-- GMD.find_entry: quadratic probe for the key, stopping early at the
first unmaterialized slot. -/
def findEntry (g : GMD) (keyHash : Nat) : Option (TranslationPage × MappingEntry) :=
  g.findEntryFrom keyHash 0 g.maxRetry

/-- Probe loop of GMD.find_tp_for_insert: materialize each probed slot
and return the first page that holds the key or has space. -/
def findTpForInsertFrom (g : GMD) (f : Flash) (keyHash frames r fuel : Nat) :
    Except Err (Option TranslationPage × GMD × Flash) :=
  match fuel with
  | 0 => .ok (none, g, f)
  | fuel + 1 =>
    match g.getOrCreateTp f (g.getTpId keyHash r) with
    | none => .error .flashFull
    | some (t, g, f) =>
      if (t.find keyHash).isSome then .ok (some t, g, f)
      else if t.hasSpace frames then .ok (some t, g, f)
      else g.findTpForInsertFrom f keyHash frames (r + 1) fuel

/-- GMD.find_tp_for_insert. -/
def findTpForInsert (g : GMD) (f : Flash) (keyHash frames : Nat) :
    Except Err (Option TranslationPage × GMD × Flash) :=
  g.findTpForInsertFrom f keyHash frames 0 g.maxRetry

/-- GMD.compute_frames: max(1, ceil(total_size / entry_size)). -/
def computeFrames (g : GMD) (totalSize : Nat) : Nat :=
  max 1 (sdiv (totalSize + g.entrySize - 1) g.entrySize)

/-- GMD.total_entries. -/
def totalEntries (g : GMD) : Nat :=
  (g.pages.map (fun p => p.2.numEntries)).sum

/-- GMD.total_inline. -/
def totalInline (g : GMD) : Int :=
  (g.pages.map (fun p => p.2.numInline)).sum

end GMD

/-- CMT from src/cmt.py: bounded LRU read cache (front of the list is the
LRU end, matching OrderedDict order with popitem(last=False)) and the
dirty-TP write cache. -/
structure CMT where
  readCapacity : Nat
  writeCapacity : Nat
  readCache : List (Nat × MappingEntry)
  writeCache : List (Nat × Bool)
deriving DecidableEq

namespace CMT

/-- CMT.lookup: move a hit to the MRU end and return it. -/
def lookup (c : CMT) (keyHash : Nat) : Option MappingEntry × CMT :=
  match alistFind c.readCache keyHash with
  | none => (none, c)
  | some e =>
    (some e, { c with readCache := alistErase c.readCache keyHash ++ [(keyHash, e)] })

/-- Eviction loop of CMT.insert: pop the LRU end while at or above
capacity; none models the KeyError from popitem on an empty OrderedDict. -/
def evictLoop (cache : List (Nat × MappingEntry)) (cap : Nat) :
    Option (List (Nat × MappingEntry)) :=
  match cache with
  | [] => if cap = 0 then none else some []
  | x :: rest => if cap ≤ (x :: rest).length then evictLoop rest cap else some (x :: rest)

/-- CMT.insert: no-op for inline entries unless cache_inline; otherwise
evict down below capacity then place / replace the entry. -/
def insert (c : CMT) (keyHash : Nat) (e : MappingEntry) (cacheInline : Bool := false) :
    Option CMT :=
  if e.isInline ∧ ¬cacheInline then some c
  else
    match evictLoop c.readCache c.readCapacity with
    | none => none
    | some cache =>
      if (alistFind cache keyHash).isSome then
        some { c with readCache := alistSet cache keyHash e }
      else
        some { c with readCache := cache ++ [(keyHash, e)] }

/-- CMT.invalidate. -/
def invalidate (c : CMT) (keyHash : Nat) : CMT :=
  { c with readCache := alistErase c.readCache keyHash }

/-- CMT.update_data_page: rewrite data_page_id for every cached regular
entry that pointed at the relocated page. -/
def updateDataPage (c : CMT) (oldPid newPid : Int) : CMT :=
  { c with
      readCache := c.readCache.map (fun p =>
        if ¬p.2.isInline ∧ p.2.dataPageId = oldPid then
          (p.1, { p.2 with dataPageId := newPid })
        else p) }

/-- CMT.read_size. -/
def readSize (c : CMT) : Nat := c.readCache.length

end CMT

/-- InlineContext from src/inlining.py. -/
structure InlineContext where
  keySize : Nat
  valueSize : Nat
  tpUtilization : Frac := 0
  tpInlineFrac : Frac := 0
  cmtHitRate : Frac := 0
  epoch : Nat := 0

/-- Interface of the inlining policies (should_inline / update and the
optional feedback hook probed with hasattr in KVSSD._send_feedback).
should_inline may update policy state (the ML policies draw from their
RNG and bump counters inside should_inline). -/
structure Policy (σ : Type) where
  shouldInline : σ → InlineContext → Bool × σ
  update : σ → InlineContext → σ
  feedback : Option (σ → InlineContext → Bool → Nat → σ)

/-- State owned by a KVSSD instance: flash, GMD, CMT, metrics, the policy
state, the PUT epoch counter, the flash-full retry counter and the GC
threshold (0.85 for the GarbageCollector the KVSSD constructs). -/
structure KVState (σ : Type) where
  flash : Flash
  gmd : GMD
  cmt : CMT
  metrics : Metrics
  policy : σ
  epoch : Nat
  gcRetries : Nat
  gcThreshold : Frac

namespace KVState

variable {σ : Type}

/-- KVSSD._relocate_data_page: rewrite data_page_id in every mapping
entry of every TP and in every cached CMT entry. -/
def relocateDataPage (s : KVState σ) (oldPid newPid : Nat) : KVState σ :=
  { s with
      gmd := { s.gmd with
        pages := s.gmd.pages.map (fun p =>
          (p.1, { p.2 with
            entries := p.2.entries.map (fun q =>
              if ¬q.2.isInline ∧ q.2.dataPageId = (oldPid : Int) then
                (q.1, { q.2 with dataPageId := (newPid : Int) })
              else q) })) }
      cmt := s.cmt.updateDataPage (oldPid : Int) (newPid : Int) }

/-- Helper for KVSSD._relocate_tp_page: rebind the first TP (in creation
order) whose flash_page_id matches, then stop. -/
def relocateTpPageList (l : List (Nat × TranslationPage)) (oldPid newPid : Nat) :
    List (Nat × TranslationPage) :=
  match l with
  | [] => []
  | (k, t) :: rest =>
    if t.flashPageId = oldPid then (k, { t with flashPageId := newPid }) :: rest
    else (k, t) :: relocateTpPageList rest oldPid newPid

/-- KVSSD._relocate_tp_page. -/
def relocateTpPage (s : KVState σ) (oldPid newPid : Nat) : KVState σ :=
  { s with gmd := { s.gmd with pages := relocateTpPageList s.gmd.pages oldPid newPid } }

/-- GarbageCollector.should_run: utilization at or above the threshold. -/
def gcShouldRun (s : KVState σ) : Prop :=
  s.gcThreshold ≤ s.flash.utilization

instance : DecidablePred (gcShouldRun (σ := σ)) := fun s =>
  inferInstanceAs (Decidable (s.gcThreshold ≤ s.flash.utilization))

/-- GarbageCollector._select_victim: block with the most invalid pages,
lowest id on ties, none when no block has any invalid page. -/
def selectVictim (s : KVState σ) : Option Nat :=
  let best := (List.range s.flash.totalBlocks).foldl
    (fun acc bid =>
      let inv := s.flash.invalidCountInBlock bid
      if acc.2 < inv then (some bid, inv) else acc)
    ((none : Option Nat), 0)
  best.1

/-- Relocation loop of GarbageCollector._collect_block over the snapshot
of valid pages, charging a read, an allocation and a write per page and
invoking the type's relocator callback. -/
def relocateAll (s : KVState σ) : List (Nat × PageType) → Except Err (KVState σ)
  | [] => .ok s
  | (oldPid, ty) :: rest =>
    let s := { s with metrics := { s.metrics with gcPagesCopied := s.metrics.gcPagesCopied + 1 } }
    let (f, m) := s.flash.readPage s.metrics (oldPid : Int) ty
    let s := { s with flash := f, metrics := m }
    match s.flash.allocatePage with
    | none => .error .flashFull
    | some (newPid, f) =>
      let (f, m) := f.writePage s.metrics newPid ty
      let s := { s with flash := f, metrics := m }
      let s :=
        match ty with
        | .translation => s.relocateTpPage oldPid newPid
        | .data => s.relocateDataPage oldPid newPid
      relocateAll s rest

/-- GarbageCollector._collect_block: snapshot the valid pages, relocate
them, then erase the victim block. -/
def collectBlock (s : KVState σ) (bid : Nat) : Except Err (KVState σ) := do
  let s := { s with metrics := { s.metrics with gcInvocations := s.metrics.gcInvocations + 1 } }
  let validPages := s.flash.validPagesInBlock bid
  let s ← s.relocateAll validPages
  let (f, m) := s.flash.eraseBlock s.metrics bid
  return { s with flash := f, metrics := m }

/-- GarbageCollector.run: collect victim blocks until the loop stops; the
source clears `force` after the first round. Returns the number of rounds
collected. -/
def gcRun (s : KVState σ) (maxRounds : Nat) (force : Bool) : Except Err (Nat × KVState σ) :=
  match maxRounds with
  | 0 => .ok (0, s)
  | m + 1 =>
    if ¬force ∧ ¬s.gcShouldRun then .ok (0, s)
    else
      match s.selectVictim with
      | none => .ok (0, s)
      | some victim => do
        let s ← s.collectBlock victim
        let (r, s) ← s.gcRun m false
        return (r + 1, s)

/-- KVSSD._allocate_with_gc: try to allocate; on flash-full run one forced
GC pass (max_rounds = total_blocks) and retry, surfacing the terminal
flash-full error when the GC reclaimed no round. -/
def allocateWithGc (s : KVState σ) : Except Err (Nat × KVState σ) :=
  match s.flash.allocatePage with
  | some (pid, f) => .ok (pid, { s with flash := f })
  | none => do
    let (rounds, s) ← s.gcRun s.flash.totalBlocks true
    let s := { s with gcRetries := s.gcRetries + 1 }
    if rounds = 0 then .error .flashFull
    else
      match s.flash.allocatePage with
      | some (pid, f) => .ok (pid, { s with flash := f })
      | none => .error .flashFull

/-- KVSSD._build_context. -/
def buildContext (s : KVState σ) (keyHash keySize valueSize : Nat) : InlineContext :=
  match s.gmd.getTp (s.gmd.getTpId keyHash 0) with
  | some t =>
    { keySize := keySize, valueSize := valueSize,
      tpUtilization := t.utilization, tpInlineFrac := t.inlineFrac,
      cmtHitRate := s.metrics.cmtHitRate, epoch := s.epoch }
  | none =>
    { keySize := keySize, valueSize := valueSize,
      tpUtilization := 0, tpInlineFrac := 0,
      cmtHitRate := s.metrics.cmtHitRate, epoch := s.epoch }

/-- KVSSD._send_feedback: reward signal for policies that expose a
feedback hook. -/
def sendFeedback (P : Policy σ) (s : KVState σ) (e : MappingEntry) (flashReads : Nat) :
    KVState σ :=
  match P.feedback with
  | none => s
  | some fb =>
    let ctx := s.buildContext e.keyHash e.keySize e.valueSize
    { s with policy := fb s.policy ctx e.isInline flashReads }

/-- KVSSD.get. Returns the hit/found boolean of the source. -/
def get (P : Policy σ) (s : KVState σ) (keyHash : Nat) : Except Err (Bool × KVState σ) :=
  let s := { s with metrics :=
    ({ s.metrics with totalGets := s.metrics.totalGets + 1 }).beginRequest }
  let (hit, cmt) := s.cmt.lookup keyHash
  let s := { s with cmt := cmt }
  match hit with
  | some e =>
    let s := { s with metrics := { s.metrics with cmtHits := s.metrics.cmtHits + 1 } }
    let s :=
      if ¬e.isInline then
        let (f, m) := s.flash.readPage s.metrics e.dataPageId .data
        { s with flash := f, metrics := m }
      else s
    .ok (true, { s with metrics := s.metrics.endGetRequest })
  | none =>
    let s := { s with metrics := { s.metrics with cmtMisses := s.metrics.cmtMisses + 1 } }
    match s.gmd.findEntry keyHash with
    | none => .ok (false, { s with metrics := s.metrics.endGetRequest })
    | some (t, e) =>
      let (f, m) := s.flash.readPage s.metrics (t.flashPageId : Int) .translation
      let s := { s with flash := f, metrics := m }
      if e.isInline then
        let s := sendFeedback P s e 1
        .ok (true, { s with metrics := s.metrics.endGetRequest })
      else
        match s.cmt.insert keyHash e with
        | none => .error .keyError
        | some cmt =>
          let s := { s with cmt := cmt }
          let (f, m) := s.flash.readPage s.metrics e.dataPageId .data
          let s := { s with flash := f, metrics := m }
          let s := sendFeedback P s e 2
          .ok (true, { s with metrics := s.metrics.endGetRequest })

/-- KVSSD._free_old_entry: free the data page of an existing regular
entry before overwriting the key. -/
def freeOldEntry (s : KVState σ) (keyHash : Nat) : KVState σ :=
  match s.gmd.findEntry keyHash with
  | some (_, e) =>
    if ¬e.isInline ∧ 0 ≤ e.dataPageId then
      { s with flash := s.flash.freePage e.dataPageId.toNat }
    else s
  | none => s

/-- Look up a TP by id, defaulting to the given page; used where the
source keeps operating on the object reference it obtained earlier (the
object is the one stored in GMD._pages, so a fresh lookup by id sees the
same state). -/
def tpById (s : KVState σ) (t : TranslationPage) : TranslationPage :=
  (s.gmd.getTp t.tpId).getD t

/-- KVSSD._convert_to_regular: move an evicted inline entry out to a
freshly allocated data page and re-insert it as a regular entry. -/
def convertToRegular (_P : Policy σ) (s : KVState σ) (tpRef : TranslationPage)
    (old : MappingEntry) : Except Err (KVState σ) := do
  let (dataPage, s) ← s.allocateWithGc
  let (f, m) := s.flash.writePage s.metrics dataPage .data
  let s := { s with flash := f, metrics := m }
  let newEntry : MappingEntry :=
    { keyHash := old.keyHash, keySize := old.keySize, valueSize := old.valueSize,
      isInline := false, dataPageId := (dataPage : Int), framesUsed := 1 }
  let s := { s with gmd := s.gmd.setTp ((s.tpById tpRef).insert newEntry) }
  match s.cmt.insert old.keyHash newEntry with
  | none => .error .keyError
  | some cmt =>
    return { s with
      cmt := cmt
      metrics := { s.metrics with
        inlineEntries := s.metrics.inlineEntries - 1
        regularEntries := s.metrics.regularEntries + 1
        inlineToRegular := s.metrics.inlineToRegular + 1 } }

/-- KVSSD._put_regular. The returned boolean reports whether an entry was
inserted; the source silently returns without inserting when
find_tp_for_insert yields no page. -/
def putRegular (_P : Policy σ) (s : KVState σ) (keyHash keySize valueSize : Nat) :
    Except Err (Bool × KVState σ) := do
  let r ← s.gmd.findTpForInsert s.flash keyHash 1
  let (found, g, f) := r
  let s := { s with gmd := g, flash := f }
  match found with
  | none => return (false, s)
  | some tpRef => do
    let (dataPage, s) ← s.allocateWithGc
    let (f, m) := s.flash.writePage s.metrics dataPage .data
    let s := { s with flash := f, metrics := m }
    let entry : MappingEntry :=
      { keyHash := keyHash, keySize := keySize, valueSize := valueSize,
        isInline := false, dataPageId := (dataPage : Int), framesUsed := 1 }
    let tp := (s.tpById tpRef).insert entry
    let s := { s with gmd := s.gmd.setTp tp }
    let (f, m) := s.flash.writePage s.metrics tp.flashPageId .translation
    let s := { s with flash := f, metrics := m }
    match s.cmt.insert keyHash entry with
    | none => .error .keyError
    | some cmt =>
      return (true, { s with
        cmt := cmt
        metrics := { s.metrics with regularEntries := s.metrics.regularEntries + 1 } })

/-- Common tail of KVSSD._put_inline: insert the inline entry, persist the
TP, drop any stale cached copy and count the inline insertion. -/
def putInlineFinish (s : KVState σ) (tpRef : TranslationPage)
    (keyHash keySize valueSize frames : Nat) : Except Err (Bool × KVState σ) :=
  let entry : MappingEntry :=
    { keyHash := keyHash, keySize := keySize, valueSize := valueSize,
      isInline := true, dataPageId := -1, framesUsed := frames }
  let tp := (s.tpById tpRef).insert entry
  let s := { s with gmd := s.gmd.setTp tp }
  let (f, m) := s.flash.writePage s.metrics tp.flashPageId .translation
  let s := { s with flash := f, metrics := m }
  let s := { s with cmt := s.cmt.invalidate keyHash }
  .ok (true, { s with
    metrics := { s.metrics with inlineEntries := s.metrics.inlineEntries + 1 } })

/-- KVSSD._put_inline: find (or make) room in a TP on the key's probe
sequence, evicting and converting one inline entry if needed, falling
back to the regular path when no room can be made. -/
def putInline (P : Policy σ) (s : KVState σ) (keyHash keySize valueSize : Nat) :
    Except Err (Bool × KVState σ) := do
  let totalSize := 12 + keySize + valueSize
  let frames := s.gmd.computeFrames totalSize
  let r ← s.gmd.findTpForInsert s.flash keyHash frames
  let (found, g, f) := r
  let s := { s with gmd := g, flash := f }
  match found with
  | none => putRegular P s keyHash keySize valueSize
  | some tpRef =>
    if (s.tpById tpRef).hasSpace frames then
      putInlineFinish s tpRef keyHash keySize valueSize frames
    else do
      let (tp, evicted) := (s.tpById tpRef).evictOneInline
      let s := { s with gmd := s.gmd.setTp tp }
      let s ←
        match evicted with
        | some old => convertToRegular P s tpRef old
        | none => pure s
      if (s.tpById tpRef).hasSpace frames then
        putInlineFinish s tpRef keyHash keySize valueSize frames
      else
        putRegular P s keyHash keySize valueSize

/-- KVSSD.put. The returned boolean reports whether an entry was inserted
(false exactly on the silent no-op path of _put_regular). -/
def put (P : Policy σ) (s : KVState σ) (keyHash keySize valueSize : Nat) :
    Except Err (Bool × KVState σ) := do
  let s := { s with
    metrics := { s.metrics with
      totalPuts := s.metrics.totalPuts + 1
      hostWrites := s.metrics.hostWrites + 1 }
    epoch := s.epoch + 1 }
  let s := s.freeOldEntry keyHash
  let ctx := s.buildContext keyHash keySize valueSize
  let s := { s with policy := P.update s.policy ctx }
  let (inline?, pol) := P.shouldInline s.policy ctx
  let s := { s with policy := pol }
  let (inserted, s) ←
    if inline? then putInline P s keyHash keySize valueSize
    else putRegular P s keyHash keySize valueSize
  if s.gcShouldRun then
    let (_, s) ← s.gcRun 10 false
    return (inserted, s)
  else
    return (inserted, s)

/-- KVSSD.delete. -/
def delete (_P : Policy σ) (s : KVState σ) (keyHash : Nat) : Except Err (Bool × KVState σ) :=
  let s := { s with metrics := { s.metrics with totalDeletes := s.metrics.totalDeletes + 1 } }
  match s.gmd.findEntry keyHash with
  | none => .ok (false, s)
  | some (t, e) =>
    let s := { s with gmd := s.gmd.setTp ((s.tpById t).remove keyHash).1 }
    let s := { s with cmt := s.cmt.invalidate keyHash }
    if e.isInline then
      .ok (true, { s with metrics :=
        { s.metrics with inlineEntries := s.metrics.inlineEntries - 1 } })
    else
      let s := { s with metrics :=
        { s.metrics with regularEntries := s.metrics.regularEntries - 1 } }
      let s := if 0 ≤ e.dataPageId then { s with flash := s.flash.freePage e.dataPageId.toNat } else s
      .ok (true, s)

end KVState

/-- An operation of the driver contract (value_size is zero for get and
delete; keys appear as their hash plus length, see the header note). -/
inductive Op where
  | put (keyHash keySize valueSize : Nat)
  | get (keyHash : Nat)
  | del (keyHash : Nat)
deriving DecidableEq

/-- Run one operation; the boolean is put's inserted flag (true for get
and delete, whose results do not matter for workload bookkeeping). -/
def stepOp {σ : Type} (P : Policy σ) (s : KVState σ) : Op → Except Err (Bool × KVState σ)
  | .put kh ks vs => s.put P kh ks vs
  | .get kh => do
    let (_, s) ← s.get P kh
    return (true, s)
  | .del kh => do
    let (_, s) ← s.delete P kh
    return (true, s)

/-- Run a workload; the boolean is true iff every put inserted an entry
(no put took the silent no-op path of _put_regular). -/
def runOps {σ : Type} (P : Policy σ) (s : KVState σ) :
    List Op → Except Err (Bool × KVState σ)
  | [] => .ok (true, s)
  | op :: rest => do
    let (b, s) ← stepOp P s op
    let (b', s) ← runOps P s rest
    return (b ∧ b', s)

/-- States reachable from a given state by sequences of put/get/delete
that run to completion. -/
inductive Reachable {σ : Type} (P : Policy σ) (init : KVState σ) : KVState σ → Prop where
  | refl : Reachable P init init
  | put {s : KVState σ} {kh ks vs : Nat} {b : Bool} {s' : KVState σ} :
      Reachable P init s → s.put P kh ks vs = .ok (b, s') → Reachable P init s'
  | get {s : KVState σ} {kh : Nat} {b : Bool} {s' : KVState σ} :
      Reachable P init s → s.get P kh = .ok (b, s') → Reachable P init s'
  | del {s : KVState σ} {kh : Nat} {b : Bool} {s' : KVState σ} :
      Reachable P init s → s.delete P kh = .ok (b, s') → Reachable P init s'

/-- SSDConfig from src/config.py, with its nested flash/mapping/cmt
groups flattened into one record. Floats hold exact decimals and are
modelled by Frac. -/
structure SSDConfig where
  capacityBytes : Nat
  pageSize : Nat := 16384
  pagesPerBlock : Nat := 256
  readLatencyUs : Frac := 45
  entrySize : Nat := 32
  hashBits : Nat := 27
  maxRetry : Nat := 8
  ppaSize : Nat := 8
  dataAlignment : Nat := 512
  cmtBudget : Frac := ⟨5, 1000⟩
  cmtReadWriteSplit : Frac := 1

namespace SSDConfig

/-- SSDConfig.frames_per_tp. -/
def framesPerTp (c : SSDConfig) : Nat := c.pageSize / c.entrySize

/-- SSDConfig.max_kv_pairs. -/
def maxKvPairs (c : SSDConfig) : Nat := c.capacityBytes / c.dataAlignment

/-- SSDConfig.num_translation_pages. -/
def numTranslationPages (c : SSDConfig) : Nat := c.maxKvPairs / c.framesPerTp

/-- SSDConfig.cmt_entry_capacity: the CMT budget in entries split between
the read and write caches (int() truncation is the floor for the
non-negative values involved). -/
def cmtEntryCapacity (c : SSDConfig) : Nat × Nat :=
  let budget := ((Frac.ofNat c.capacityBytes).mul c.cmtBudget).floorToNat
  let totalEntries := budget / c.entrySize
  let readEntries :=
    (((Frac.ofNat totalEntries).mul c.cmtReadWriteSplit).div
      ((1 : Frac).add c.cmtReadWriteSplit)).floorToNat
  (readEntries, totalEntries - readEntries)

/-- SSDConfig.hash_mask. -/
def hashMask (c : SSDConfig) : Nat := 2 ^ c.hashBits - 1

end SSDConfig

/-- KVSSD.__init__: the initial state for a configuration and an initial
policy state. The GC threshold is the GarbageCollector default 0.85. -/
def initKV {σ : Type} (c : SSDConfig) (pol : σ) : KVState σ :=
  { flash :=
      { totalPages := c.capacityBytes / c.pageSize
        pagesPerBlock := c.pagesPerBlock
        occupied := ∅
        valid := ∅
        pageTypes := []
        nextPage := 0
        eraseCounts := fun _ => 0 }
    gmd :=
      { numTps := c.numTranslationPages
        framesPerTp := c.framesPerTp
        maxRetry := c.maxRetry
        entrySize := c.entrySize
        pages := [] }
    cmt :=
      { readCapacity := (c.cmtEntryCapacity).1
        writeCapacity := (c.cmtEntryCapacity).2
        readCache := []
        writeCache := [] }
    metrics := { readLatencyUs := c.readLatencyUs }
    policy := pol
    epoch := 0
    gcRetries := 0
    gcThreshold := ⟨85, 100⟩ }

/-- BaselinePolicy from src/inlining.py: inline iff the value fits in the
PPA field; stateless, no update, no feedback hook. -/
def baselinePolicy (ppaSize : Nat) : Policy Unit :=
  { shouldInline := fun u ctx => (ctx.valueSize ≤ ppaSize, u)
    update := fun u _ => u
    feedback := none }

/-- Observer policy used to witness when the KVSSD invokes the feedback
hook: like the ML policies it exposes a feedback method, and its state
just counts the invocations (a test double; its should_inline always
chooses the regular path). -/
def feedbackProbePolicy : Policy Nat :=
  { shouldInline := fun n _ => (false, n)
    update := fun n _ => n
    feedback := some (fun n _ _ _ => n + 1) }

/-- KVPackDPolicy state from src/inlining.py: threshold, the frame-count
frequency table in insertion order, the interval and warmup counters. -/
structure KVPackD where
  entrySize : Nat
  warmup : Nat
  interval : Nat
  threshold : Nat := 0
  frameCounts : List (Nat × Nat) := []
  iosSeen : Nat := 0
  totalIos : Nat := 0
  initialized : Bool := false
deriving DecidableEq

namespace KVPackD

/-- Python max(dict, key=dict.get): the first key attaining the maximal
value in iteration (= insertion) order, none for an empty table. -/
def popularKey (l : List (Nat × Nat)) : Option Nat :=
  (l.foldl (fun acc p =>
    match acc with
    | none => some p
    | some q => if q.2 < p.2 then some p else some q) none).map (·.1)

/-- KVPackDPolicy._recompute_threshold: raise the threshold to the popular
frame count times entry_size, never lowering it; reset the frequency
table and the interval counter. -/
def recomputeThreshold (p : KVPackD) : KVPackD :=
  match popularKey p.frameCounts with
  | none => p
  | some popularFrames =>
    let newThreshold := popularFrames * p.entrySize
    let p := if p.threshold < newThreshold then { p with threshold := newThreshold } else p
    { p with frameCounts := [], iosSeen := 0 }

/-- Increment helper for the frequency table (dict.get default 0). -/
def bumpFrame (l : List (Nat × Nat)) (frames : Nat) : List (Nat × Nat) :=
  match alistFind l frames with
  | some c => alistSet l frames (c + 1)
  | none => l ++ [(frames, 1)]

/-- KVPackDPolicy.update. -/
def update (p : KVPackD) (ctx : InlineContext) : KVPackD :=
  let p := { p with totalIos := p.totalIos + 1, iosSeen := p.iosSeen + 1 }
  let total := ctx.keySize + ctx.valueSize + 12
  let frames := max 1 ((total + p.entrySize - 1) / p.entrySize)
  let p := { p with frameCounts := bumpFrame p.frameCounts frames }
  if ¬p.initialized ∧ p.warmup ≤ p.totalIos then
    { p.recomputeThreshold with initialized := true }
  else if p.initialized ∧ p.interval ≤ p.iosSeen then
    p.recomputeThreshold
  else p

/-- KVPackDPolicy.should_inline. -/
def shouldInline (p : KVPackD) (ctx : InlineContext) : Bool :=
  if ¬p.initialized then false
  else ctx.keySize + ctx.valueSize + 12 ≤ p.threshold

/-- The KVPack-D policy packaged for the orchestrator. -/
def policy : Policy KVPackD :=
  { shouldInline := fun p ctx => (shouldInline p ctx, p)
    update := fun p ctx => update p ctx
    feedback := none }

end KVPackD

/-
Concrete instances used to evaluate the machine on explicit workloads.
-/

/-- True iff the computation did not raise. -/
def exceptOkFlag {α β : Type} (r : Except α β) : Bool :=
  match r with
  | .ok _ => true
  | .error _ => false

/-- Final state of a workload run, with a fallback for the error case. -/
def endStateD {σ : Type} (r : Except Err (Bool × KVState σ)) (d : KVState σ) : KVState σ :=
  match r with
  | .ok (_, s) => s
  | .error _ => d

/-- Round count of a GC run, with a fallback for the error case. -/
def gcRoundsD {σ : Type} (r : Except Err (Nat × KVState σ)) : Nat :=
  match r with
  | .ok (n, _) => n
  | .error _ => 0

/-- Final state of a GC run, with a fallback for the error case. -/
def gcStateD {σ : Type} (r : Except Err (Nat × KVState σ)) (d : KVState σ) : KVState σ :=
  match r with
  | .ok (_, s) => s
  | .error _ => d

/-- Tiny configuration: 64 flash pages of 64 B, 2 frames per TP, 64
translation pages, CMT read capacity 4. -/
def cfgTiny : SSDConfig :=
  { capacityBytes := 4096, pageSize := 64, pagesPerBlock := 16,
    entrySize := 32, dataAlignment := 32, cmtBudget := ⟨1, 16⟩ }

/-- Workload whose final put revisits an earlier probe slot that regained
space, duplicating key 0 and leaving the stale copy pointing at a freed
data page: fill TP 0 with keys 64 and 128, push key 0 to TP 1, free a
frame of TP 0, overwrite key 0. -/
def c1Trace : List Op :=
  [ .put 64 4 100, .put 128 4 100, .put 0 4 100, .del 64, .put 0 4 100 ]

/-- Result of running the duplicate-entry workload. -/
def c1Run : Except Err (Bool × KVState Unit) :=
  runOps (baselinePolicy 8) (initKV cfgTiny ()) c1Trace

/-- Final state of the duplicate-entry workload. -/
def c1End : KVState Unit := endStateD c1Run (initKV cfgTiny ())

/-- Tight configuration for flash-full scenarios: 4 flash pages of 128 B
in 2 blocks of 2 pages, 4 frames per TP, 4 translation pages. -/
def cfgFull : SSDConfig :=
  { capacityBytes := 512, pageSize := 128, pagesPerBlock := 2,
    entrySize := 32, dataAlignment := 32, cmtBudget := ⟨1, 2⟩ }

/-- Workload filling all four flash pages (one TP page, three data pages,
all valid), then invalidating the two data pages of block 1 — a state
where a forced GC can reclaim space without relocating anything. -/
def c2Trace : List Op :=
  [ .put 0 4 100, .put 4 4 100, .put 8 4 100, .del 4, .del 8 ]

/-- Final state of the flash-filling workload: flash fully occupied,
pages 2 and 3 invalid, key 3's probe-0 slot (TP 3) not materialized. -/
def c2End : KVState Unit :=
  endStateD (runOps (baselinePolicy 8) (initKV cfgFull ()) c2Trace) (initKV cfgFull ())

/-- State of the forced GC pass launched from the full-flash state. -/
def c2GcState : KVState Unit := gcStateD (c2End.gcRun 2 true) c2End

/-- Constructed flash for exercising GarbageCollector.run: 8 pages in 4
blocks of 2; blocks 0 and 1 fully occupied and fully invalid, utilization
1/2 (below the 0.85 threshold). -/
def flashC4 : Flash :=
  { totalPages := 8, pagesPerBlock := 2, occupied := {0, 1, 2, 3}, valid := ∅,
    pageTypes := [], nextPage := 4, eraseCounts := fun _ => 0 }

/-- KVSSD state around flashC4 (empty GMD/CMT, default metrics). -/
def sC4 : KVState Unit :=
  { flash := flashC4
    gmd := { numTps := 4, framesPerTp := 4, maxRetry := 8, entrySize := 32, pages := [] }
    cmt := { readCapacity := 4, writeCapacity := 4, readCache := [], writeCache := [] }
    metrics := {}
    policy := ()
    epoch := 0
    gcRetries := 0
    gcThreshold := ⟨85, 100⟩ }

/-- State after collecting the first victim of sC4. -/
def sC4After : KVState Unit :=
  match sC4.collectBlock 0 with
  | .ok s => s
  | .error _ => sC4

/-- Configuration with single-frame translation pages (32 B pages): a TP
fills up after one regular entry. 128 flash pages, 256 TPs. -/
def cfgOneFrame : SSDConfig :=
  { capacityBytes := 4096, pageSize := 32, pagesPerBlock := 16,
    entrySize := 32, dataAlignment := 16, cmtBudget := ⟨1, 16⟩ }

/-- Fill every translation page on key 0's probe sequence
(slots 0,1,4,9,16,25,36,49) with an entry of a different key, so that
subsequent puts of key 0 are dropped by find_tp_for_insert. -/
def c5Fill : List Op :=
  [ .put 256 4 100, .put 257 4 100, .put 260 4 100, .put 265 4 100,
    .put 272 4 100, .put 281 4 100, .put 292 4 100, .put 305 4 100 ]

/-- The filling workload followed by nine dropped puts of key 0. -/
def c5Trace : List Op := c5Fill ++ List.replicate 9 (.put 0 4 100)

/-- Result of the dropped-puts workload. -/
def c5Run : Except Err (Bool × KVState Unit) :=
  runOps (baselinePolicy 8) (initKV cfgOneFrame ()) c5Trace

/-- Final state of the dropped-puts workload. -/
def c5End : KVState Unit := endStateD c5Run (initKV cfgOneFrame ())

/-- One-put workload used to witness the amended WAF bound. -/
def c5WTrace : List Op := [.put 32 4 100]

/-- Its final state on the empty cfgTiny machine. -/
def c5WEnd : KVState Unit :=
  endStateD (runOps (baselinePolicy 8) (initKV cfgTiny ()) c5WTrace) (initKV cfgTiny ())

/-- Probe slot j of key k is materialized. -/
def GMD.slotMat (g : GMD) (k j : Nat) : Bool :=
  (g.getTp (g.getTpId k j)).isSome

/-- The TP at probe slot j of key k exists and holds an entry for k. -/
def GMD.slotHasKey (g : GMD) (k j : Nat) : Bool :=
  match g.getTp (g.getTpId k j) with
  | none => false
  | some tp => (tp.find k).isSome

/-- Every materialized page is stored under its own id. -/
def GMD.idConsistent (g : GMD) : Prop :=
  ∀ tid tp, g.getTp tid = some tp → tp.tpId = tid

/-- Every entry is stored under its own key hash. -/
def GMD.wellKeyed (g : GMD) : Prop :=
  ∀ tid tp, g.getTp tid = some tp → ∀ p, p ∈ tp.entries → p.2.keyHash = p.1

/-- Each occupied probe slot is explained by an anchored probe position:
a slot index no later than it, naming the same page, below which the
whole probe prefix is materialized. -/
def GMD.probesAnchored (g : GMD) : Prop :=
  ∀ k j', j' < g.maxRetry → g.slotHasKey k j' = true →
    ∃ j, j ≤ j' ∧ g.getTpId k j = g.getTpId k j' ∧
      ∀ i, i ≤ j → g.slotMat k i = true

/-- The probe-structure invariant carried across reachable states. -/
def GMD.probeInv (g : GMD) : Prop :=
  g.idConsistent ∧ g.wellKeyed ∧ g.probesAnchored

/-- One GMD evolves from another without gaining keyed slots: the probe
geometry is unchanged, materialized slots persist, occupied slots only
disappear, and the structural invariants carry over. -/
def gmdEvolve (g g' : GMD) : Prop :=
  g'.numTps = g.numTps ∧ g'.maxRetry = g.maxRetry ∧
  (∀ tid, (g.getTp tid).isSome → (g'.getTp tid).isSome) ∧
  (∀ k j, g'.slotHasKey k j = true → g.slotHasKey k j = true) ∧
  (g.idConsistent → g'.idConsistent) ∧
  (g.wellKeyed → g'.wellKeyed)

/-- Probe geometry and materialized slots survive (weaker than
gmdEvolve: keyed slots may grow, as inserts do). -/
def gmdGrows (g g' : GMD) : Prop :=
  g'.numTps = g.numTps ∧ g'.maxRetry = g.maxRetry ∧
  (∀ tid, (g.getTp tid).isSome → (g'.getTp tid).isSome)

/-- A 4-translation-page configuration: 8 max kv pairs over 2 frames per
TP, so the 8-step probe sequences wrap around. -/
def cfgProbe : SSDConfig :=
  { capacityBytes := 4096, pageSize := 64, pagesPerBlock := 16,
    entrySize := 32, dataAlignment := 512, cmtBudget := ⟨1, 16⟩ }

/-- State after one inlined put of key 0 on the 4-TP machine. -/
def c7End : KVState Unit :=
  endStateD (runOps (baselinePolicy 8) (initKV cfgProbe ()) [.put 0 4 4])
    (initKV cfgProbe ())

/-- Number of translation pages holding an entry for the key. -/
def GMD.keyCount (g : GMD) (k : Nat) : Nat :=
  (g.pages.map (fun p => if ((p.2).find k).isSome then 1 else 0)).sum

def c3Prefix : List Op := [.put 64 4 100, .put 128 4 100, .put 0 4 100, .del 64]

def c3Pre : KVState Unit :=
  endStateD (runOps (baselinePolicy 8) (initKV cfgTiny ()) c3Prefix) (initKV cfgTiny ())

def c3DupTrace : List Op := [.put 0 4 100, .put 0 4 100]

def c3End : KVState Unit :=
  endStateD (runOps (baselinePolicy 8) c3Pre c3DupTrace) c3Pre

/-- Probe position j0 names the page tid and its whole probe prefix is
materialized. -/
def probeTo (g : GMD) (k tid j0 : Nat) : Prop :=
  j0 < g.maxRetry ∧ g.getTpId k j0 = tid ∧ ∀ i, i ≤ j0 → g.slotMat k i = true

/-- Some probe slot within max_retry holds the key with its whole prefix
materialized: find_entry is then guaranteed to succeed. -/
def GMD.keyAnchored (g : GMD) (k : Nat) : Prop :=
  ∃ j0, j0 < g.maxRetry ∧ g.slotHasKey k j0 = true ∧
    ∀ i, i ≤ j0 → g.slotMat k i = true

/-- The probe structure is untouched: same geometry, same materialized
slots, same keyed slots (garbage collection relocations). -/
def gmdKeysEq (g g' : GMD) : Prop :=
  g'.numTps = g.numTps ∧ g'.maxRetry = g.maxRetry ∧
  (∀ k j, g'.slotHasKey k j = g.slotHasKey k j) ∧
  (∀ k j, g'.slotMat k j = g.slotMat k j)

def c3W1 : KVState Unit :=
  endStateD (runOps (baselinePolicy 8) (initKV cfgTiny ()) [.put 5 4 100])
    (initKV cfgTiny ())

def c3W2 : KVState Unit :=
  endStateD (runOps (baselinePolicy 8) c3W1 [.put 5 4 100]) c3W1

def c3W3 : KVState Unit :=
  endStateD (KVState.get (baselinePolicy 8) c3W2 5) c3W2

/-- State holding one regular entry for key 5, cached in the CMT, under
the probe policy that counts feedback invocations. -/
def c6End : KVState Nat :=
  endStateD (runOps feedbackProbePolicy (initKV cfgTiny (0 : Nat)) [.put 5 4 100])
    (initKV cfgTiny (0 : Nat))

/-- The state reached from the empty cfgTiny machine after 1 + n puts of
the same small key/value pair (key hash 7, 4 B key, 4 B value, inlined by
the baseline policy): one live inline entry in TP 7, and counters that
grow with every overwrite. -/
def c10Shape (n : Nat) : KVState Unit :=
  { flash := { totalPages := 64, pagesPerBlock := 16, occupied := {0}, valid := {0},
               pageTypes := [(0, .translation)],
               nextPage := 1, eraseCounts := fun _ => 0 }
    gmd := { numTps := 64, framesPerTp := 2, maxRetry := 8, entrySize := 32,
             pages := [(7, { tpId := 7, totalFrames := 2, usedFrames := 1,
                             entries := [(7, { keyHash := 7, keySize := 4, valueSize := 4,
                                               isInline := true, dataPageId := -1, framesUsed := 1 })],
                             numInline := 1, flashPageId := 0 })] }
    cmt := { readCapacity := 4, writeCapacity := 4, readCache := [], writeCache := [] }
    metrics := { flashWrites := n + 1, totalPuts := n + 1, hostWrites := n + 1,
                 inlineEntries := (n : Int) + 1 }
    policy := ()
    epoch := n + 1
    gcRetries := 0
    gcThreshold := ⟨85, 100⟩ }

/-
Theorems.
-/

theorem except_bind_ok {ε α β : Type} (x : α) (f : α → Except ε β) :
    ((Except.ok x : Except ε α) >>= f) = f x := rfl

theorem sdivAux_eq (fuel a b : Nat) (ha : a ≤ fuel) (hb : 0 < b) :
    sdivAux fuel a b = a / b := by
  induction fuel generalizing a with
  | zero =>
    have : a = 0 := by omega
    subst this
    simp [sdivAux]
  | succ fuel ih =>
    by_cases h : b ≤ a
    · rw [show sdivAux (fuel + 1) a b = (if b ≤ a then sdivAux fuel (a - b) b + 1 else 0) from rfl,
        if_pos h, ih (a - b) (by omega)]
      rw [Nat.div_eq a b, if_pos ⟨hb, h⟩]
    · rw [show sdivAux (fuel + 1) a b = (if b ≤ a then sdivAux fuel (a - b) b + 1 else 0) from rfl,
        if_neg h, Nat.div_eq a b, if_neg (by omega)]

theorem sdiv_eq_div (a b : Nat) : sdiv a b = a / b := by
  by_cases hb : b = 0
  · subst hb
    simp [sdiv]
  · rw [sdiv, if_neg hb, sdivAux_eq a a b le_rfl (by omega)]

theorem smodAux_eq (fuel a b : Nat) (ha : a ≤ fuel) (hb : 0 < b) :
    smodAux fuel a b = a % b := by
  induction fuel generalizing a with
  | zero =>
    have : a = 0 := by omega
    subst this
    simp [smodAux]
  | succ fuel ih =>
    by_cases h : b ≤ a
    · rw [show smodAux (fuel + 1) a b = (if b ≤ a then smodAux fuel (a - b) b else a) from rfl,
        if_pos h, ih (a - b) (by omega)]
      rw [Nat.mod_eq a b, if_pos ⟨hb, h⟩]
    · rw [show smodAux (fuel + 1) a b = (if b ≤ a then smodAux fuel (a - b) b else a) from rfl,
        if_neg h, Nat.mod_eq a b, if_neg (by omega)]

theorem smod_eq_mod (a b : Nat) : smod a b = a % b := by
  by_cases hb : b = 0
  · subst hb
    simp [smod]
  · rw [smod, if_neg hb, smodAux_eq a a b le_rfl (by omega)]

theorem KVPackD.threshold_le_recompute (p : KVPackD) :
    p.threshold ≤ p.recomputeThreshold.threshold := by
  unfold recomputeThreshold
  cases popularKey p.frameCounts with
  | none => exact le_rfl
  | some popularFrames =>
    simp only
    split
    · simpa using le_of_lt (by assumption)
    · simp

theorem KVPackD.threshold_le_recompute' (p q : KVPackD) (h : q.threshold = p.threshold) :
    p.threshold ≤ q.recomputeThreshold.threshold :=
  h ▸ KVPackD.threshold_le_recompute q

theorem KVPackD.threshold_le_update (p : KVPackD) (ctx : InlineContext) :
    p.threshold ≤ (p.update ctx).threshold := by
  unfold update
  simp only
  split
  · exact KVPackD.threshold_le_recompute' p _ rfl
  · split
    · exact KVPackD.threshold_le_recompute' p _ rfl
    · exact le_rfl

/-- C8: for the KVPack-D policy, the inlining threshold is monotonically
non-decreasing over any sequence of update calls — every recomputation at
warmup completion or at an interval boundary either raises the threshold
or leaves it unchanged (a recomputed value strictly below the current
threshold is ignored). -/
theorem c8_kvpackd_threshold_monotone (p : KVPackD) (ctxs : List InlineContext) :
    p.threshold ≤ (ctxs.foldl KVPackD.update p).threshold := by
  induction ctxs generalizing p with
  | nil => exact le_rfl
  | cons c rest ih =>
    exact le_trans (p.threshold_le_update c) (ih (p.update c))

theorem CMT.evictLoop_ok (l : List (Nat × MappingEntry)) (cap : Nat) (h : 1 ≤ cap) :
    ∃ l', CMT.evictLoop l cap = some l' ∧ l'.length < cap := by
  induction l with
  | nil =>
    have hne : cap ≠ 0 := by omega
    exact ⟨[], by simp [evictLoop, hne], by simpa using h⟩
  | cons x rest ih =>
    by_cases hc : cap ≤ (x :: rest).length
    · obtain ⟨l', h1, h2⟩ := ih
      refine ⟨l', ?_, h2⟩
      rw [show CMT.evictLoop (x :: rest) cap =
        (if cap ≤ (x :: rest).length then CMT.evictLoop rest cap else some (x :: rest)) from rfl]
      rw [if_pos hc, h1]
    · refine ⟨x :: rest, ?_, by simp only [List.length_cons] at hc ⊢; omega⟩
      rw [show CMT.evictLoop (x :: rest) cap =
        (if cap ≤ (x :: rest).length then CMT.evictLoop rest cap else some (x :: rest)) from rfl]
      rw [if_neg hc]

theorem alistSet_length (l : List (Nat × α)) (k : Nat) (v : α) :
    (alistSet l k v).length = l.length := by
  induction l with
  | nil => rfl
  | cons x rest ih =>
    by_cases h : x.1 = k <;> simp [alistSet, h, ih]

/-- C9: for read_capacity ≥ 1, CMT.insert of a regular entry never raises
and leaves at most read_capacity entries in the read cache; with
read_capacity = 0 it raises an uncaught KeyError (modelled as none) even
on an empty cache, because the eviction loop pops from an empty map. -/
theorem c9_cmt_insert_capacity
    (c : CMT) (kh : Nat) (e : MappingEntry)
    (hcap : 1 ≤ c.readCapacity) (hreg : e.isInline = false) :
    (∃ c', c.insert kh e = some c' ∧ c'.readSize ≤ c.readCapacity) ∧
    (∀ (kh' : Nat) (e' : MappingEntry), e'.isInline = false →
      CMT.insert { readCapacity := 0, writeCapacity := 0,
                   readCache := [], writeCache := [] } kh' e' = none) := by
  constructor
  · obtain ⟨l', h1, h2⟩ := CMT.evictLoop_ok c.readCache c.readCapacity hcap
    by_cases hk : (alistFind l' kh).isSome
    · refine ⟨{ c with readCache := alistSet l' kh e }, ?_, ?_⟩
      · simp [CMT.insert, hreg, h1, hk]
      · simp [CMT.readSize, alistSet_length]
        omega
    · refine ⟨{ c with readCache := l' ++ [(kh, e)] }, ?_, ?_⟩
      · simp [CMT.insert, hreg, h1, hk]
      · simp [CMT.readSize]
        omega
  · intro kh' e' hreg'
    simp [CMT.insert, hreg', CMT.evictLoop]

/-- Witness for c9_cmt_insert_capacity at a concrete cache and entry. -/
theorem c9_cmt_insert_capacity_witness :
    (1 : Nat) ≤ 2 ∧
    (∃ c', CMT.insert
        { readCapacity := 2, writeCapacity := 2, readCache := [], writeCache := [] } 5
        { keyHash := 5, keySize := 4, valueSize := 9, isInline := false,
          dataPageId := 3, framesUsed := 1 } = some c' ∧ c'.readSize ≤ 2) :=
  ⟨by decide,
   (c9_cmt_insert_capacity
      { readCapacity := 2, writeCapacity := 2, readCache := [], writeCache := [] } 5
      { keyHash := 5, keySize := 4, valueSize := 9, isInline := false,
        dataPageId := 3, framesUsed := 1 } (by decide) (by decide)).1⟩

/-- C1: a reachable workload (c1Trace) leaves a regular MappingEntry in
TP 1 whose data_page_id 4 is no longer in Flash's valid set: the
overwriting put freed the old data page but find_tp_for_insert returned
the earlier probe slot (which had regained space), so the stale entry
survived in TP 1. Afterwards deleting key 0 removes only the fresh copy
and a get of key 0 still returns true through the stale entry. -/
theorem c1_stale_regular_entry_after_overwrite :
    exceptOkFlag c1Run = true ∧
    (c1End.gmd.getTp 1).map (fun tp => tp.find 0) =
      some (some { keyHash := 0, keySize := 4, valueSize := 100, isInline := false,
                   dataPageId := 4, framesUsed := 1 }) ∧
    (4 : Nat) ∉ c1End.flash.valid ∧
    (match c1End.delete (baselinePolicy 8) 0 with
     | .ok (_, s) =>
       match s.get (baselinePolicy 8) 0 with
       | .ok (b, _) => b
       | .error _ => false
     | .error _ => false) = true := by
  decide

/-- C2 counterexample: from the reachable full-flash state c2End (flash
fully occupied, two invalid pages reclaimable, TP slot 3 untouched), a
put of the new key 3 surfaces FlashFull from the TP-materialization
allocation without any forced GC, while a put of the existing key 0 —
whose allocation goes through _allocate_with_gc — recovers via one forced
GC pass and succeeds in the very same state. -/
theorem c2_tp_materialization_not_wrapped :
    c2End.flash.occupied.card = c2End.flash.totalPages ∧
    0 < c2End.flash.invalidCountInBlock 1 ∧
    c2End.gmd.getTp 3 = none ∧
    (match c2End.put (baselinePolicy 8) 3 4 100 with
     | .error .flashFull => true
     | _ => false) = true ∧
    (match c2End.put (baselinePolicy 8) 0 4 100 with
     | .ok (_, s) => decide (0 < s.metrics.gcInvocations ∧ s.gcRetries = 1)
     | .error _ => false) = true := by
  decide

/-- C4 counterexample: with force = true, utilization below the threshold
(1/2 < 0.85), max_rounds = 5 and two victim blocks each holding invalid
pages, GarbageCollector.run stops after a single round — the next victim
(block 1, two invalid pages) is left uncollected because the source
clears `force` after the first round and then fails the should_run
check, contradicting the claim that a forced run is not stopped by
utilization dropping below the threshold. -/
theorem c4_forced_gc_stops_after_one_round :
    (¬ sC4.gcShouldRun) ∧
    sC4.selectVictim = some 0 ∧
    gcRoundsD (sC4.gcRun 5 true) = 1 ∧
    exceptOkFlag (sC4.gcRun 5 true) = true ∧
    (gcStateD (sC4.gcRun 5 true) sC4).selectVictim = some 1 ∧
    0 < (gcStateD (sC4.gcRun 5 true) sC4).flash.invalidCountInBlock 1 := by
  decide

/-- C5 counterexample: after the non-empty workload c5Trace (17 puts, the
last nine of which are silently dropped because every probed TP is full),
flash_writes = 16 < 17 = host_writes, so the write amplification factor
is below 1. -/
theorem c5_flash_writes_below_host_writes :
    exceptOkFlag c5Run = true ∧
    c5End.metrics.flashWrites = 16 ∧
    c5End.metrics.hostWrites = 17 ∧
    c5End.metrics.flashWrites < c5End.metrics.hostWrites := by
  decide

/-- C6 counterexample: under a policy exposing a feedback hook, a GET
that hits the CMT on a regular entry issues one data-page flash read and
completes, yet the policy's feedback hook is not invoked (the invocation
counter stays 0); the hook is only reached on CMT-miss GETs. -/
theorem c6_cmt_hit_get_skips_feedback :
    (feedbackProbePolicy.feedback).isSome = true ∧
    c6End.policy = 0 ∧
    (match c6End.get feedbackProbePolicy 5 with
     | .ok (b, s) =>
       decide (b = true ∧ s.metrics.requestFlashReads = 1 ∧
               s.metrics.cmtHits = 1 ∧ s.policy = 0)
     | .error _ => false) = true := by
  decide

theorem gcRun_stops_without_force {σ : Type} (s : KVState σ) (m : Nat)
    (h : ¬s.gcShouldRun) : s.gcRun m false = .ok (0, s) := by
  cases m with
  | zero => rfl
  | succ m => simp [KVState.gcRun, h]

/-- C4 amended: GarbageCollector.run re-checks (not force and not
should_run) each round but clears force after the first collected round.
So without force, a run below the utilization threshold collects nothing;
and with force, below the threshold, exactly one round is collected when
a victim exists (even though more victims with invalid pages and
max_rounds remain). -/
theorem c4_gc_run_force_first_round_only {σ : Type} :
    (∀ (s : KVState σ) (m : Nat), ¬s.gcShouldRun → s.gcRun m false = .ok (0, s)) ∧
    (∀ (s s' : KVState σ) (m v : Nat), ¬s.gcShouldRun →
      s.selectVictim = some v → s.collectBlock v = .ok s' → ¬s'.gcShouldRun →
      s.gcRun (m + 2) true = .ok (1, s')) := by
  constructor
  · exact fun s m h => gcRun_stops_without_force s m h
  · intro s s' m v _h hv hc h'
    show (if ¬true = true ∧ ¬s.gcShouldRun then Except.ok (0, s)
          else match s.selectVictim with
            | none => Except.ok (0, s)
            | some victim => do
              let s ← s.collectBlock victim
              let (r, s) ← s.gcRun (m + 1) false
              return (r + 1, s)) = Except.ok (1, s')
    rw [if_neg (by simp), hv]
    simp only [hc, except_bind_ok, gcRun_stops_without_force s' (m + 1) h']
    rfl

/-- Witness for c4_gc_run_force_first_round_only at the constructed
low-utilization two-victim state. -/
theorem c4_gc_run_force_first_round_only_witness :
    sC4.gcRun 5 true = .ok (1, sC4After) :=
  (c4_gc_run_force_first_round_only (σ := Unit)).2 sC4 sC4After 3 0
    (by decide) (by decide) rfl (by decide)

/-- C2 amended: the GC-retry wrapper _allocate_with_gc protects exactly
the allocations routed through it — the data-page allocations of the
regular-put and conversion paths: when the first allocation fails it runs
one forced GC pass and surfaces FlashFull iff that pass collects no round
or the retried allocation still fails. The flash-page allocation that
materializes a TranslationPage (get_or_create_tp) is not routed through
the wrapper: in the full-flash state c2End it surfaces FlashFull from a
put without any GC, while the wrapped data-page path recovers in the very
same state. -/
theorem c2_allocate_with_gc_wrapper :
    (∀ (σ : Type) (s : KVState σ) (pid : Nat) (f : Flash),
       s.flash.allocatePage = some (pid, f) →
       s.allocateWithGc = .ok (pid, { s with flash := f })) ∧
    (∀ (σ : Type) (s s₁ : KVState σ) (r : Nat),
       s.flash.allocatePage = none →
       s.gcRun s.flash.totalBlocks true = .ok (r, s₁) →
       ((s.allocateWithGc = .error .flashFull) ↔ (r = 0 ∨ s₁.flash.allocatePage = none))) ∧
    (match c2End.put (baselinePolicy 8) 3 4 100 with
     | .error .flashFull => true
     | _ => false) = true ∧
    exceptOkFlag (c2End.put (baselinePolicy 8) 0 4 100) = true := by
  refine ⟨?_, ?_, by decide, by decide⟩
  · intro σ s pid f h
    simp [KVState.allocateWithGc, h]
  · intro σ s s₁ r h hgc
    unfold KVState.allocateWithGc
    rw [h]
    simp only [hgc, except_bind_ok]
    by_cases hr : r = 0
    · simp [hr]
    · rw [if_neg hr]
      rcases ha : Flash.allocatePage s₁.flash with _ | ⟨pid, f⟩
      · simp [ha, hr]
      · simp [ha, hr]

/-- Witness for c2_allocate_with_gc_wrapper on the reachable full-flash
state: the forced GC pass collects one round, so the wrapped allocation
does not surface FlashFull there. -/
theorem c2_allocate_with_gc_wrapper_witness :
    (c2End.allocateWithGc = .error .flashFull) ↔
      (1 = 0 ∨ c2GcState.flash.allocatePage = none) :=
  c2_allocate_with_gc_wrapper.2.1 Unit c2End c2GcState 1 rfl rfl

/-- C6 amended: under a policy exposing a feedback hook, the KVSSD
invokes the hook exactly on the GETs that miss the CMT and find their
entry via the GMD (once per such GET); a CMT hit — which still issues a
data-page read for a regular entry — and a failed lookup do not invoke
it. Stated with the invocation-counting probe policy. -/
theorem c6_feedback_exactly_on_cmt_miss_found
    (s : KVState Nat) (kh : Nat) (b : Bool) (s' : KVState Nat)
    (h : s.get feedbackProbePolicy kh = .ok (b, s')) :
    s'.policy = s.policy +
      (if (s.cmt.lookup kh).1 = none ∧ (s.gmd.findEntry kh).isSome then 1 else 0) := by
  unfold KVState.get at h
  dsimp only at h
  rcases hcl : s.cmt.lookup kh with ⟨hit, cmt'⟩
  rw [hcl] at h
  cases hit with
  | some e =>
    simp only [hcl] at h ⊢
    split at h <;>
      · injection h with h'
        injection h' with h1 h2
        subst h2
        simp
  | none =>
    simp only [hcl] at h ⊢
    rcases hfe : s.gmd.findEntry kh with _ | ⟨t, e⟩
    · rw [hfe] at h
      injection h with h'
      injection h' with h1 h2
      subst h2
      simp [hfe]
    · rw [hfe] at h
      dsimp only at h
      split at h
      · injection h with h'
        injection h' with h1 h2
        subst h2
        simp [hfe, KVState.sendFeedback, feedbackProbePolicy]
      · split at h
        · exact absurd h (by simp)
        · injection h with h'
          injection h' with h1 h2
          subst h2
          simp [hfe, KVState.sendFeedback, feedbackProbePolicy]

/-- Witness for c6_feedback_exactly_on_cmt_miss_found at the concrete
CMT-hit GET of the probe-policy machine. -/
theorem c6_feedback_exactly_on_cmt_miss_found_witness :
    (endStateD (c6End.get feedbackProbePolicy 5) c6End).policy = c6End.policy +
      (if (c6End.cmt.lookup 5).1 = none ∧ (c6End.gmd.findEntry 5).isSome then 1 else 0) :=
  c6_feedback_exactly_on_cmt_miss_found c6End 5 true
    (endStateD (c6End.get feedbackProbePolicy 5) c6End) rfl

theorem c10_base :
    (initKV cfgTiny ()).put (baselinePolicy 8) 7 4 4 = .ok (true, c10Shape 0) := rfl

set_option maxHeartbeats 8000000 in
set_option maxRecDepth 4000 in
theorem c10_step (n : Nat) :
    (c10Shape n).put (baselinePolicy 8) 7 4 4 = .ok (true, c10Shape (n + 1)) := by
  delta KVState.put KVState.putInline KVState.putRegular KVState.putInlineFinish
  rfl

theorem c10_runs (k n : Nat) :
    runOps (baselinePolicy 8) (c10Shape k) (List.replicate n (Op.put 7 4 4)) =
      .ok (true, c10Shape (k + n)) := by
  induction n generalizing k with
  | zero => rfl
  | succ n ih =>
    rw [List.replicate_succ]
    simp only [runOps, stepOp, c10_step k, except_bind_ok, ih (k + 1), Except.map_ok]
    simp [Nat.add_assoc, Nat.add_comm 1 n]
    rfl

/-- C10: inline_entries and regular_entries count insertion events, not
live entries. After an initial put and n overwriting puts of the same
(inlined) key, the GMD holds exactly one live entry while
inline_entries + regular_entries = 1 + n, i.e. the event counters exceed
the live-entry count by exactly n: each overwriting put incremented the
counter of the new entry's kind without decrementing the replaced
entry's. -/
theorem c10_counters_count_insertion_events (n : Nat) :
    runOps (baselinePolicy 8) (initKV cfgTiny ()) (List.replicate (n + 1) (Op.put 7 4 4)) =
      .ok (true, c10Shape n) ∧
    (c10Shape n).metrics.inlineEntries + (c10Shape n).metrics.regularEntries =
      ((c10Shape n).gmd.totalEntries : Int) + n ∧
    (c10Shape n).gmd.totalEntries = 1 := by
  refine ⟨?_, ?_, rfl⟩
  · rw [List.replicate_succ]
    simp only [runOps, stepOp, c10_base, except_bind_ok, c10_runs 0 n, Except.map_ok]
    simp [Nat.zero_add]
    rfl
  · simp [c10Shape, GMD.totalEntries, TranslationPage.numEntries]
    omega


theorem exbinderr {ε α β : Type} (e : ε) (f : α → Except ε β) :
    ((Except.error e : Except ε α) >>= f) = .error e := rfl

theorem expure {ε α : Type} (x : α) : (pure x : Except ε α) = .ok x := rfl

theorem exbind_ok_iff {ε α β : Type} {x : Except ε α} {f : α → Except ε β} {b : β} :
    (x >>= f) = .ok b ↔ ∃ a, x = .ok a ∧ f a = .ok b := by
  cases x with
  | error e => simp [exbinderr]
  | ok a => simp [except_bind_ok]

theorem flashWrites_recordFlashRead (m : Metrics) (ty : PageType) :
    (m.recordFlashRead ty).flashWrites = m.flashWrites := by
  cases ty <;> rfl

theorem hostWrites_recordFlashRead (m : Metrics) (ty : PageType) :
    (m.recordFlashRead ty).hostWrites = m.hostWrites := by
  cases ty <;> rfl

theorem metrics_relocateTpPage {σ : Type} (s : KVState σ) (o n : Nat) :
    (s.relocateTpPage o n).metrics = s.metrics := rfl

theorem metrics_relocateDataPage {σ : Type} (s : KVState σ) (o n : Nat) :
    (s.relocateDataPage o n).metrics = s.metrics := rfl

theorem relocateAll_writes {σ : Type} (l : List (Nat × PageType)) :
    ∀ (s s' : KVState σ), s.relocateAll l = .ok s' →
      s.metrics.flashWrites ≤ s'.metrics.flashWrites ∧
      s'.metrics.hostWrites = s.metrics.hostWrites := by
  induction l with
  | nil =>
    intro s s' h
    injection h with h'
    subst h'
    exact ⟨le_rfl, rfl⟩
  | cons p rest ih =>
    intro s s' h
    unfold KVState.relocateAll at h
    dsimp only at h
    split at h
    · exact absurd h (by simp)
    · obtain ⟨h1, h2⟩ := ih _ _ h
      rcases p with ⟨pid, ty⟩
      cases ty <;>
        simp only [metrics_relocateTpPage, metrics_relocateDataPage, Flash.writePage,
          Flash.readPage, Metrics.recordFlashRead] at h1 h2 <;>
        exact ⟨by omega, by omega⟩

theorem collectBlock_writes {σ : Type} (s : KVState σ) (bid : Nat) (s' : KVState σ)
    (h : s.collectBlock bid = .ok s') :
    s.metrics.flashWrites ≤ s'.metrics.flashWrites ∧
    s'.metrics.hostWrites = s.metrics.hostWrites := by
  unfold KVState.collectBlock at h
  dsimp only at h
  rcases hra : KVState.relocateAll
      { s with metrics := { s.metrics with gcInvocations := s.metrics.gcInvocations + 1 } }
      (s.flash.validPagesInBlock bid) with _ | s₂
  · rw [hra] at h
    exact absurd h (by simp)
  · rw [hra] at h
    obtain ⟨h1, h2⟩ := relocateAll_writes _ _ _ hra
    simp only [except_bind_ok] at h
    injection h with h'
    subst h'
    simp only [Flash.eraseBlock]
    exact ⟨by simp at h1 ⊢; omega, by simp at h2 ⊢; omega⟩

theorem gcRun_writes {σ : Type} (m : Nat) :
    ∀ (s : KVState σ) (force : Bool) (r : Nat) (s' : KVState σ),
      s.gcRun m force = .ok (r, s') →
      s.metrics.flashWrites ≤ s'.metrics.flashWrites ∧
      s'.metrics.hostWrites = s.metrics.hostWrites := by
  induction m with
  | zero =>
    intro s force r s' h
    injection h with h'
    injection h' with h1 h2
    subst h2
    exact ⟨le_rfl, rfl⟩
  | succ m ih =>
    intro s force r s' h
    unfold KVState.gcRun at h
    dsimp only at h
    split at h
    · injection h with h'
      injection h' with h1 h2
      subst h2
      exact ⟨le_rfl, rfl⟩
    · split at h
      · injection h with h'
        injection h' with h1 h2
        subst h2
        exact ⟨le_rfl, rfl⟩
      · rcases hcb : s.collectBlock _ with _ | s₂
        · rw [hcb] at h
          simp [exbinderr] at h
        · rw [hcb] at h
          simp only [except_bind_ok] at h
          rcases hgr : s₂.gcRun m false with _ | ⟨r₂, s₃⟩
          · rw [hgr] at h
            simp [exbinderr] at h
          · rw [hgr] at h
            simp only [except_bind_ok] at h
            injection h with h'
            injection h' with h1 h2
            subst h2
            obtain ⟨a1, a2⟩ := collectBlock_writes _ _ _ hcb
            obtain ⟨b1, b2⟩ := ih _ _ _ _ hgr
            exact ⟨by omega, by omega⟩

theorem allocateWithGc_writes {σ : Type} (s : KVState σ) (pid : Nat) (s' : KVState σ)
    (h : s.allocateWithGc = .ok (pid, s')) :
    s.metrics.flashWrites ≤ s'.metrics.flashWrites ∧
    s'.metrics.hostWrites = s.metrics.hostWrites := by
  unfold KVState.allocateWithGc at h
  split at h
  · injection h with h'
    injection h' with h1 h2
    subst h2
    exact ⟨le_rfl, rfl⟩
  · rcases hgr : s.gcRun s.flash.totalBlocks true with _ | ⟨r, s₂⟩
    · rw [hgr] at h
      simp [exbinderr] at h
    · rw [hgr] at h
      simp only [except_bind_ok] at h
      obtain ⟨a1, a2⟩ := gcRun_writes _ _ _ _ _ hgr
      split at h
      · exact absurd h (by simp)
      · split at h
        · injection h with h'
          injection h' with h1 h2
          subst h2
          exact ⟨a1, a2⟩
        · exact absurd h (by simp)

theorem convertToRegular_writes {σ : Type} (P : Policy σ) (s : KVState σ)
    (tpRef : TranslationPage) (old : MappingEntry) (s' : KVState σ)
    (h : KVState.convertToRegular P s tpRef old = .ok s') :
    s.metrics.flashWrites ≤ s'.metrics.flashWrites ∧
    s'.metrics.hostWrites = s.metrics.hostWrites := by
  unfold KVState.convertToRegular at h
  dsimp only at h
  rcases ha : s.allocateWithGc with _ | ⟨pid, s₂⟩
  · rw [ha] at h
    simp [exbinderr] at h
  · rw [ha] at h
    simp only [except_bind_ok] at h
    obtain ⟨a1, a2⟩ := allocateWithGc_writes _ _ _ ha
    split at h
    · exact absurd h (by simp)
    · injection h with h'
      subst h'
      refine ⟨?_, ?_⟩ <;>
      · simp only [Flash.writePage]
        omega

theorem putInlineFinish_writes {σ : Type} (s : KVState σ) (tpRef : TranslationPage)
    (kh ks vs fr : Nat) (b : Bool) (s' : KVState σ)
    (h : s.putInlineFinish tpRef kh ks vs fr = .ok (b, s')) :
    s.metrics.flashWrites + 1 ≤ s'.metrics.flashWrites ∧
    s'.metrics.hostWrites = s.metrics.hostWrites ∧ b = true := by
  unfold KVState.putInlineFinish at h
  dsimp only at h
  injection h with h'
  injection h' with h1 h2
  subst h2
  exact ⟨by simp only [Flash.writePage]; omega, rfl, h1.symm⟩

theorem putRegular_writes {σ : Type} (P : Policy σ) (s : KVState σ)
    (kh ks vs : Nat) (s' : KVState σ)
    (h : KVState.putRegular P s kh ks vs = .ok (true, s')) :
    s.metrics.flashWrites + 1 ≤ s'.metrics.flashWrites ∧
    s'.metrics.hostWrites = s.metrics.hostWrites := by
  unfold KVState.putRegular at h
  dsimp only at h
  rcases hf : s.gmd.findTpForInsert s.flash kh 1 with _ | ⟨found, g, f⟩
  · rw [hf] at h
    simp [exbinderr] at h
  · rw [hf] at h
    simp only [except_bind_ok] at h
    cases found with
    | none =>
      dsimp only at h
      injection h with h'
      injection h' with h1 h2
      exact absurd h1 (by simp)
    | some tpRef =>
      dsimp only at h
      rcases ha : KVState.allocateWithGc
          { s with gmd := g, flash := f } with _ | ⟨pid, s₂⟩
      · rw [ha] at h
        simp [exbinderr] at h
      · rw [ha] at h
        simp only [except_bind_ok] at h
        obtain ⟨a1, a2⟩ := allocateWithGc_writes _ _ _ ha
        simp only at a1 a2
        split at h
        · exact absurd h (by simp)
        · injection h with h'
          injection h' with h1 h2
          subst h2
          refine ⟨?_, ?_⟩ <;>
          · simp only [Flash.writePage]
            omega

theorem putInline_writes {σ : Type} (P : Policy σ) (s : KVState σ)
    (kh ks vs : Nat) (s' : KVState σ)
    (h : KVState.putInline P s kh ks vs = .ok (true, s')) :
    s.metrics.flashWrites + 1 ≤ s'.metrics.flashWrites ∧
    s'.metrics.hostWrites = s.metrics.hostWrites := by
  unfold KVState.putInline at h
  dsimp only at h
  rcases hf : s.gmd.findTpForInsert s.flash kh
      (s.gmd.computeFrames (12 + ks + vs)) with _ | ⟨found, g, f⟩
  · rw [hf] at h
    simp [exbinderr] at h
  · rw [hf] at h
    simp only [except_bind_ok] at h
    cases found with
    | none =>
      dsimp only at h
      obtain ⟨a1, a2⟩ := putRegular_writes P _ kh ks vs s' h
      exact ⟨a1, a2⟩
    | some tpRef =>
      dsimp only at h
      split at h
      · obtain ⟨a1, a2, _⟩ := putInlineFinish_writes _ _ _ _ _ _ _ _ h
        exact ⟨a1, a2⟩
      · rcases hev : (KVState.tpById { s with gmd := g, flash := f } tpRef).evictOneInline
            with ⟨tp, evicted⟩
        rw [hev] at h
        dsimp only at h
        cases evicted with
        | none =>
          simp only [expure, except_bind_ok] at h
          split at h
          · obtain ⟨a1, a2, _⟩ := putInlineFinish_writes _ _ _ _ _ _ _ _ h
            exact ⟨a1, a2⟩
          · obtain ⟨a1, a2⟩ := putRegular_writes P _ kh ks vs s' h
            exact ⟨a1, a2⟩
        | some old =>
          rw [exbind_ok_iff] at h
          obtain ⟨s₂, hcv, h⟩ := h
          obtain ⟨b1, b2⟩ := convertToRegular_writes _ _ _ _ _ hcv
          simp only at b1 b2
          split at h
          · obtain ⟨a1, a2, _⟩ := putInlineFinish_writes _ _ _ _ _ _ _ _ h
            exact ⟨by omega, by omega⟩
          · obtain ⟨a1, a2⟩ := putRegular_writes P _ kh ks vs s' h
            exact ⟨by omega, by omega⟩

theorem metrics_freeOldEntry {σ : Type} (s : KVState σ) (kh : Nat) :
    (KVState.freeOldEntry s kh).metrics = s.metrics := by
  unfold KVState.freeOldEntry
  split
  · split <;> rfl
  · rfl

theorem put_writes {σ : Type} (P : Policy σ) (s : KVState σ)
    (kh ks vs : Nat) (s' : KVState σ)
    (h : KVState.put P s kh ks vs = .ok (true, s')) :
    s.metrics.flashWrites + 1 ≤ s'.metrics.flashWrites ∧
    s'.metrics.hostWrites = s.metrics.hostWrites + 1 := by
  unfold KVState.put at h
  dsimp only at h
  split at h <;>
  · rw [exbind_ok_iff] at h
    obtain ⟨⟨inserted, s₅⟩, hpi, h⟩ := h
    dsimp only at h
    split at h
    · rw [exbind_ok_iff] at h
      obtain ⟨⟨r, s₆⟩, hgc, h⟩ := h
      dsimp only at h
      injection h with h'
      injection h' with h1 h2
      subst h2; subst h1
      obtain ⟨g1, g2⟩ := gcRun_writes _ _ _ _ _ hgc
      first
      | · obtain ⟨a1, a2⟩ := putInline_writes _ _ _ _ _ _ hpi
          simp only [metrics_freeOldEntry] at a1 a2
          exact ⟨by omega, by omega⟩
      | · obtain ⟨a1, a2⟩ := putRegular_writes _ _ _ _ _ _ hpi
          simp only [metrics_freeOldEntry] at a1 a2
          exact ⟨by omega, by omega⟩
    · injection h with h'
      injection h' with h1 h2
      subst h2; subst h1
      first
      | · obtain ⟨a1, a2⟩ := putInline_writes _ _ _ _ _ _ hpi
          simp only [metrics_freeOldEntry] at a1 a2
          exact ⟨by omega, by omega⟩
      | · obtain ⟨a1, a2⟩ := putRegular_writes _ _ _ _ _ _ hpi
          simp only [metrics_freeOldEntry] at a1 a2
          exact ⟨by omega, by omega⟩

theorem metrics_sendFeedback_writes {σ : Type} (P : Policy σ) (s : KVState σ)
    (e : MappingEntry) (fr : Nat) :
    (KVState.sendFeedback P s e fr).metrics = s.metrics := by
  unfold KVState.sendFeedback
  split <;> rfl

theorem get_writes {σ : Type} (P : Policy σ) (s : KVState σ)
    (kh : Nat) (b : Bool) (s' : KVState σ)
    (h : KVState.get P s kh = .ok (b, s')) :
    s'.metrics.flashWrites = s.metrics.flashWrites ∧
    s'.metrics.hostWrites = s.metrics.hostWrites := by
  unfold KVState.get at h
  dsimp only at h
  rcases hcl : CMT.lookup _ kh with ⟨hit, cmt⟩
  rw [hcl] at h
  dsimp only at h
  cases hit with
  | some e =>
    split at h
    · injection h with h'
      injection h' with h1 h2
      subst h2
      refine ⟨?_, ?_⟩ <;> split <;>
        simp [Flash.readPage, Metrics.recordFlashRead, Metrics.beginRequest,
          Metrics.endGetRequest]
    · contradiction
  | none =>
    dsimp only at h
    rcases hfe : GMD.findEntry _ kh with _ | ⟨t, e⟩
    · rw [hfe] at h
      dsimp only at h
      injection h with h'
      injection h' with h1 h2
      subst h2
      simp [Metrics.beginRequest, Metrics.endGetRequest]
    · rw [hfe] at h
      dsimp only at h
      split at h
      · injection h with h'
        injection h' with h1 h2
        subst h2
        simp [metrics_sendFeedback_writes, Flash.readPage, Metrics.recordFlashRead,
          Metrics.beginRequest, Metrics.endGetRequest]
      · split at h
        · exact absurd h (by simp)
        · injection h with h'
          injection h' with h1 h2
          subst h2
          simp [metrics_sendFeedback_writes, Flash.readPage, Metrics.recordFlashRead,
            Metrics.beginRequest, Metrics.endGetRequest]

theorem delete_writes {σ : Type} (P : Policy σ) (s : KVState σ)
    (kh : Nat) (b : Bool) (s' : KVState σ)
    (h : KVState.delete P s kh = .ok (b, s')) :
    s'.metrics.flashWrites = s.metrics.flashWrites ∧
    s'.metrics.hostWrites = s.metrics.hostWrites := by
  unfold KVState.delete at h
  dsimp only at h
  split at h
  · injection h with h'
    injection h' with h1 h2
    subst h2
    exact ⟨rfl, rfl⟩
  · split at h
    · injection h with h'
      injection h' with h1 h2
      subst h2
      exact ⟨rfl, rfl⟩
    · split at h <;>
      · injection h with h'
        injection h' with h1 h2
        subst h2
        exact ⟨rfl, rfl⟩

theorem runOps_waf {σ : Type} (P : Policy σ) (ops : List Op) :
    ∀ (s s' : KVState σ), runOps P s ops = .ok (true, s') →
      s.metrics.hostWrites ≤ s.metrics.flashWrites →
      s'.metrics.hostWrites ≤ s'.metrics.flashWrites := by
  induction ops with
  | nil =>
    intro s s' h h0
    injection h with h'
    injection h' with h1 h2
    subst h2
    exact h0
  | cons op rest ih =>
    intro s s' h h0
    unfold runOps at h
    rw [exbind_ok_iff] at h
    obtain ⟨⟨b, s₁⟩, hstep, h⟩ := h
    dsimp only at h
    rw [exbind_ok_iff] at h
    obtain ⟨⟨b', s₂⟩, hrun, h⟩ := h
    dsimp only at h
    injection h with h'
    injection h' with h1 h2
    subst h2
    have hb : b = true ∧ b' = true := by
      cases b <;> cases b' <;> simp_all
    obtain ⟨hb1, hb2⟩ := hb
    subst hb1; subst hb2
    refine ih _ _ hrun ?_
    cases op with
    | put kh ks vs =>
      obtain ⟨a1, a2⟩ := put_writes P s kh ks vs s₁ hstep
      omega
    | get kh =>
      simp only [stepOp] at hstep
      rw [exbind_ok_iff] at hstep
      obtain ⟨⟨bg, sg⟩, hg, hstep⟩ := hstep
      dsimp only at hstep
      injection hstep with h'
      injection h' with h1 h2
      subst h2
      obtain ⟨a1, a2⟩ := get_writes P s kh _ _ hg
      omega
    | del kh =>
      simp only [stepOp] at hstep
      rw [exbind_ok_iff] at hstep
      obtain ⟨⟨bg, sg⟩, hg, hstep⟩ := hstep
      dsimp only at hstep
      injection hstep with h'
      injection h' with h1 h2
      subst h2
      obtain ⟨a1, a2⟩ := delete_writes P s kh _ _ hg
      omega

/-- C5 (amended): flash_writes ≥ host_writes (WAF ≥ 1) holds after any
workload from the initial state in which every put actually inserts its
entry (no put takes the silent no-op return of _put_regular) and no
operation aborts: each put adds 1 to host_writes and at least one flash
page write, while get and delete leave both counters unchanged. -/
theorem c5_waf_ge_one_when_puts_insert {σ : Type} (cfg : SSDConfig) (pol : σ)
    (P : Policy σ) (ops : List Op) (s' : KVState σ)
    (h : runOps P (initKV cfg pol) ops = .ok (true, s')) :
    s'.metrics.hostWrites ≤ s'.metrics.flashWrites :=
  runOps_waf P ops _ s' h (Nat.le_refl 0)

theorem c5_waf_ge_one_when_puts_insert_witness :
    c5WEnd.metrics.hostWrites ≤ c5WEnd.metrics.flashWrites :=
  c5_waf_ge_one_when_puts_insert cfgTiny () (baselinePolicy 8) c5WTrace c5WEnd rfl

theorem alistFind_append_left {α : Type} (l m : List (Nat × α)) (k : Nat)
    (v : α) (h : alistFind l k = some v) : alistFind (l ++ m) k = some v := by
  simp only [alistFind, List.find?_append] at h ⊢
  rcases hf : List.find? (fun p => decide (p.1 = k)) l with _ | w
  · rw [hf] at h; simp at h
  · rw [hf] at h ⊢
    exact h

theorem alistFind_append_right {α : Type} (l m : List (Nat × α)) (k : Nat)
    (h : alistFind l k = none) : alistFind (l ++ m) k = alistFind m k := by
  simp only [alistFind, List.find?_append] at h ⊢
  rcases hf : List.find? (fun p => decide (p.1 = k)) l with _ | w
  · rw [hf]
    rfl
  · rw [hf] at h; simp at h

theorem alistFind_set_isSome {α : Type} (l : List (Nat × α)) (a x : Nat) (v : α) :
    (alistFind (alistSet l a v) x).isSome = (alistFind l x).isSome := by
  induction l with
  | nil => simp [alistSet]
  | cons p rest ih =>
    rcases p with ⟨k', v'⟩
    by_cases h : k' = a
    · subst h
      by_cases hx : k' = x
      · subst hx
        simp [alistSet, alistFind, List.find?]
      · simp [alistSet, alistFind, List.find?, hx, Ne.symm hx]
    · by_cases hx : k' = x
      · subst hx
        simp [alistSet, alistFind, List.find?, h]
      · simp only [alistSet, if_neg h]
        simp only [alistFind, List.find?] at ih ⊢
        simp [hx, ih]

theorem alistFind_set_ne {α : Type} (l : List (Nat × α)) (a x : Nat) (v : α)
    (hx : x ≠ a) :
    alistFind (alistSet l a v) x = alistFind l x := by
  induction l with
  | nil => simp [alistSet]
  | cons p rest ih =>
    rcases p with ⟨k', v'⟩
    by_cases h : k' = a
    · subst h
      have h2 : ¬ x = k' := fun hc => hx hc
      have h1 : ¬ k' = x := fun hc => h2 hc.symm
      simp [alistSet, alistFind, List.find?, h1, h2, hx]
    · simp only [alistSet, if_neg h]
      simp only [alistFind, List.find?] at ih ⊢
      by_cases hk : k' = x <;> simp [hk, ih]

theorem alistFind_set_self {α : Type} (l : List (Nat × α)) (a : Nat) (v : α)
    (h : (alistFind l a).isSome = true) :
    alistFind (alistSet l a v) a = some v := by
  induction l with
  | nil => simp [alistFind] at h
  | cons p rest ih =>
    rcases p with ⟨k', v'⟩
    by_cases hk : k' = a
    · subst hk
      simp [alistSet, alistFind, List.find?]
    · simp only [alistSet, if_neg hk]
      simp only [alistFind, List.find?, hk, decide_eq_true_eq, if_neg hk,
        decide_eq_false] at h ih ⊢
      exact ih h

theorem alistSet_mem {α : Type} (l : List (Nat × α)) (a : Nat) (v : α)
    (p : Nat × α) (hp : p ∈ alistSet l a v) : p = (a, v) ∨ p ∈ l := by
  induction l with
  | nil => simp [alistSet] at hp
  | cons q rest ih =>
    rcases q with ⟨k', v'⟩
    by_cases h : k' = a
    · subst h
      simp only [alistSet, if_pos rfl] at hp
      rcases List.mem_cons.mp hp with h' | h'
      · exact Or.inl h'
      · exact Or.inr (List.mem_cons_of_mem _ h')
    · simp only [alistSet, if_neg h] at hp
      rcases List.mem_cons.mp hp with h' | h'
      · subst h'
        exact Or.inr (List.mem_cons_self _ _)
      · rcases ih h' with h'' | h''
        · exact Or.inl h''
        · exact Or.inr (List.mem_cons_of_mem _ h'')

theorem getTp_setTp_ne (g : GMD) (t : TranslationPage) (tid : Nat)
    (h : tid ≠ t.tpId) : (g.setTp t).getTp tid = g.getTp tid := by
  simp only [GMD.setTp, GMD.getTp]
  exact alistFind_set_ne _ _ _ _ h

theorem getTp_setTp_self (g : GMD) (t : TranslationPage)
    (h : (g.getTp t.tpId).isSome = true) : (g.setTp t).getTp t.tpId = some t := by
  simp only [GMD.setTp, GMD.getTp] at h ⊢
  exact alistFind_set_self _ _ _ h

theorem getTp_setTp_isSome (g : GMD) (t : TranslationPage) (tid : Nat) :
    ((g.setTp t).getTp tid).isSome = (g.getTp tid).isSome := by
  simp only [GMD.setTp, GMD.getTp]
  exact alistFind_set_isSome _ _ _ _

theorem getTpId_congr (g g' : GMD) (h : g'.numTps = g.numTps) (k j : Nat) :
    g'.getTpId k j = g.getTpId k j := by
  simp [GMD.getTpId, h]

theorem gmdEvolve_refl (g : GMD) : gmdEvolve g g :=
  ⟨rfl, rfl, fun _ h => h, fun _ _ h => h, id, id⟩

theorem gmdEvolve_trans (g g' g'' : GMD) (h1 : gmdEvolve g g') (h2 : gmdEvolve g' g'') :
    gmdEvolve g g'' := by
  obtain ⟨a1, a2, a3, a4, a5, a6⟩ := h1
  obtain ⟨b1, b2, b3, b4, b5, b6⟩ := h2
  exact ⟨b1.trans a1, b2.trans a2, fun tid h => b3 tid (a3 tid h),
    fun k j h => a4 k j (b4 k j h), fun h => b5 (a5 h), fun h => b6 (a6 h)⟩

theorem slotMat_evolve (g g' : GMD) (h : gmdEvolve g g') (k i : Nat)
    (hm : g.slotMat k i = true) : g'.slotMat k i = true := by
  obtain ⟨h1, _, h3, _⟩ := h
  simp only [GMD.slotMat] at hm ⊢
  rw [getTpId_congr g g' h1]
  exact h3 _ hm

theorem probesAnchored_evolve (g g' : GMD) (h : gmdEvolve g g')
    (hJ : g.probesAnchored) : g'.probesAnchored := by
  intro k j' hj hk
  obtain ⟨h1, h2, h3, h4, _, _⟩ := h
  obtain ⟨j, hjle, htid, hmat⟩ := hJ k j' (h2 ▸ hj) (h4 k j' hk)
  refine ⟨j, hjle, ?_, fun i hi => ?_⟩
  · rw [getTpId_congr g g' h1, getTpId_congr g g' h1]
    exact htid
  · simp only [GMD.slotMat] at hmat ⊢
    rw [getTpId_congr g g' h1]
    exact h3 _ (hmat i hi)

theorem probeInv_evolve (g g' : GMD) (h : gmdEvolve g g') (hI : g.probeInv) :
    g'.probeInv :=
  ⟨h.2.2.2.2.1 hI.1, h.2.2.2.2.2 hI.2.1, probesAnchored_evolve g g' h hI.2.2⟩

theorem alistFind_single {α : Type} (a x : Nat) (b : α) :
    alistFind [(a, b)] x = if x = a then some b else none := by
  by_cases h : x = a
  · subst h
    simp [alistFind, List.find?]
  · have h' : ¬ a = x := fun hc => h hc.symm
    simp [alistFind, List.find?, h, h']

theorem getOrCreateTp_spec (g : GMD) (f : Flash) (tid : Nat)
    (t : TranslationPage) (g' : GMD) (f' : Flash)
    (h : g.getOrCreateTp f tid = some (t, g', f')) :
    gmdEvolve g g' ∧ g'.getTp tid = some t ∧
    (g.idConsistent → t.tpId = tid) := by
  unfold GMD.getOrCreateTp at h
  rcases hget : g.getTp tid with _ | t0
  · rw [hget] at h
    dsimp only at h
    rcases halloc : f.allocatePage with _ | pf
    · rw [halloc] at h
      exact absurd h (by simp)
    · rcases pf with ⟨pid, f₁⟩
      rw [halloc] at h
      dsimp only at h
      injection h with h'
      injection h' with h1 h'
      injection h' with h2 h3
      subst h1; subst h2
      constructor
      · refine ⟨rfl, rfl, ?_, ?_, ?_, ?_⟩
        · intro tid' hs
          simp only [GMD.getTp] at hs ⊢
          rcases hb : alistFind g.pages tid' with _ | w
          · rw [hb] at hs; simp at hs
          · rw [alistFind_append_left _ _ _ _ hb]
            rfl
        · intro k j hk
          simp only [GMD.slotHasKey, GMD.getTp, GMD.getTpId] at hk ⊢
          rcases hb : alistFind g.pages (smod (k + j * j) g.numTps) with _ | w
          · rw [alistFind_append_right _ _ _ hb, alistFind_single] at hk
            split at hk
            · simp [TranslationPage.find, alistFind] at hk
            · rename_i heq
              split at heq
              · injection heq with he
                subst he
                simp [TranslationPage.find, alistFind] at hk
              · exact absurd heq (by simp)
          · rw [alistFind_append_left _ _ _ _ hb] at hk
            exact hk
        · intro hI tid' tp htp
          simp only [GMD.getTp] at htp
          rcases hb : alistFind g.pages tid' with _ | w
          · rw [alistFind_append_right _ _ _ hb, alistFind_single] at htp
            split at htp
            · injection htp with he
              subst he
              rename_i hx
              rw [hx]
            · exact absurd htp (by simp)
          · rw [alistFind_append_left _ _ _ _ hb] at htp
            injection htp with he
            subst he
            exact hI tid' w hb
        · intro hW tid' tp htp p hp
          simp only [GMD.getTp] at htp
          rcases hb : alistFind g.pages tid' with _ | w
          · rw [alistFind_append_right _ _ _ hb, alistFind_single] at htp
            split at htp
            · injection htp with he
              subst he
              simp at hp
            · exact absurd htp (by simp)
          · rw [alistFind_append_left _ _ _ _ hb] at htp
            injection htp with he
            subst he
            exact hW tid' w hb p hp
      · constructor
        · simp only [GMD.getTp] at hget ⊢
          rw [alistFind_append_right _ _ _ hget, alistFind_single]
          simp
        · intro _
          rfl
  · rw [hget] at h
    dsimp only at h
    injection h with h'
    injection h' with h1 h'
    injection h' with h2 h3
    subst h1; subst h2
    exact ⟨gmdEvolve_refl g, hget, fun hI => hI tid t0 hget⟩

theorem slotMat_of_getTp (g : GMD) (k i : Nat) (t : TranslationPage)
    (h : g.getTp (g.getTpId k i) = some t) : g.slotMat k i = true := by
  simp [GMD.slotMat, h]

theorem findTpForInsertFrom_spec (k frames : Nat) :
    ∀ (fuel r : Nat) (g : GMD) (f : Flash) (found : Option TranslationPage)
      (g' : GMD) (f' : Flash),
      g.findTpForInsertFrom f k frames r fuel = .ok (found, g', f') →
      g.idConsistent →
      gmdEvolve g g' ∧
      ∀ tpRef, found = some tpRef →
        g'.getTp tpRef.tpId = some tpRef ∧
        ∃ j0, r ≤ j0 ∧ g'.getTpId k j0 = tpRef.tpId ∧
          ∀ i, r ≤ i → i ≤ j0 → g'.slotMat k i = true := by
  intro fuel
  induction fuel with
  | zero =>
    intro r g f found g' f' h _
    unfold GMD.findTpForInsertFrom at h
    injection h with h'
    injection h' with h1 h'
    injection h' with h2 h3
    subst h1; subst h2
    exact ⟨gmdEvolve_refl g, fun tpRef hf => absurd hf (by simp)⟩
  | succ fuel ih =>
    intro r g f found g' f' h hId
    unfold GMD.findTpForInsertFrom at h
    rcases hoc : g.getOrCreateTp f (g.getTpId k r) with _ | tgf
    · rw [hoc] at h
      exact absurd h (by simp)
    · rcases tgf with ⟨t, g₁, f₁⟩
      rw [hoc] at h
      dsimp only at h
      obtain ⟨hev1, hget1, hid1⟩ := getOrCreateTp_spec _ _ _ _ _ _ hoc
      have htid : t.tpId = g.getTpId k r := hid1 hId
      have hnum1 : g₁.numTps = g.numTps := hev1.1
      have hmat1 : g₁.slotMat k r = true := by
        apply slotMat_of_getTp g₁ k r t
        rw [getTpId_congr g g₁ hnum1]
        exact hget1
      split at h
      · injection h with h'
        injection h' with h1 h'
        injection h' with h2 h3
        subst h1; subst h2
        refine ⟨hev1, fun tpRef hf => ?_⟩
        injection hf with he
        subst he
        constructor
        · rw [htid]
          exact hget1
        · refine ⟨r, le_rfl, ?_, fun i hri hir => ?_⟩
          · rw [getTpId_congr g g₁ hnum1, htid]
          · have : i = r := le_antisymm hir hri
            subst this
            exact hmat1
      · split at h
        · injection h with h'
          injection h' with h1 h'
          injection h' with h2 h3
          subst h1; subst h2
          refine ⟨hev1, fun tpRef hf => ?_⟩
          injection hf with he
          subst he
          constructor
          · rw [htid]
            exact hget1
          · refine ⟨r, le_rfl, ?_, fun i hri hir => ?_⟩
            · rw [getTpId_congr g g₁ hnum1, htid]
            · have : i = r := le_antisymm hir hri
              subst this
              exact hmat1
        · obtain ⟨hev2, hfound⟩ := ih (r + 1) g₁ f₁ found g' f' h (hev1.2.2.2.2.1 hId)
          refine ⟨gmdEvolve_trans g g₁ g' hev1 hev2, fun tpRef hf => ?_⟩
          obtain ⟨hget', j0, hj0, htid0, hmatp⟩ := hfound tpRef hf
          refine ⟨hget', j0, le_trans (Nat.le_succ r) hj0, htid0, fun i hri hij => ?_⟩
          rcases Nat.lt_or_ge i (r + 1) with hlt | hge
          · have : i = r := by omega
            subst this
            exact slotMat_evolve g₁ g' hev2 k i hmat1
          · exact hmatp i hge hij

theorem gmdGrows_of_evolve (g g' : GMD) (h : gmdEvolve g g') : gmdGrows g g' :=
  ⟨h.1, h.2.1, h.2.2.1⟩

theorem gmdGrows_refl (g : GMD) : gmdGrows g g := ⟨rfl, rfl, fun _ h => h⟩

theorem gmdGrows_trans (g g' g'' : GMD) (h1 : gmdGrows g g') (h2 : gmdGrows g' g'') :
    gmdGrows g g'' :=
  ⟨h2.1.trans h1.1, h2.2.1.trans h1.2.1, fun tid h => h2.2.2 tid (h1.2.2 tid h)⟩

theorem slotMat_grows (g g' : GMD) (h : gmdGrows g g') (k i : Nat)
    (hm : g.slotMat k i = true) : g'.slotMat k i = true := by
  simp only [GMD.slotMat] at hm ⊢
  rw [getTpId_congr g g' h.1]
  exact h.2.2 _ hm

theorem alistFind_erase {α : Type} (l : List (Nat × α)) (a x : Nat) :
    alistFind (alistErase l a) x = if x = a then none else alistFind l x := by
  induction l with
  | nil => simp [alistErase, alistFind]
  | cons p rest ih =>
    rcases p with ⟨k', v'⟩
    by_cases hka : k' = a
    · have hdrop : alistErase ((k', v') :: rest) a = alistErase rest a := by
        simp [alistErase, List.filter_cons, hka]
      rw [hdrop, ih]
      by_cases hx : x = a
      · simp [hx]
      · have h1 : ¬ k' = x := fun hc => hx (hc ▸ hka)
        simp [hx, alistFind, List.find?, h1]
    · have hkeep : alistErase ((k', v') :: rest) a = (k', v') :: alistErase rest a := by
        simp [alistErase, List.filter_cons, hka]
      rw [hkeep]
      by_cases hkx : k' = x
      · subst hkx
        simp [alistFind, List.find?, hka]
      · have hskip : ∀ (tail : List (Nat × α)),
            alistFind ((k', v') :: tail) x = alistFind tail x := by
          intro tail
          simp [alistFind, List.find?, hkx]
        rw [hskip (alistErase rest a), ih]
        by_cases hx : x = a
        · simp [hx]
        · simp [hx, hskip rest]

theorem alistErase_mem {α : Type} (l : List (Nat × α)) (a : Nat)
    (p : Nat × α) (hp : p ∈ alistErase l a) : p ∈ l :=
  List.mem_of_mem_filter hp

theorem alistFind_isSome_of_mem {α : Type} (l : List (Nat × α)) (p : Nat × α)
    (hp : p ∈ l) : (alistFind l p.1).isSome = true := by
  induction l with
  | nil => simp at hp
  | cons q rest ih =>
    rcases List.mem_cons.mp hp with h | h
    · subst h
      simp [alistFind, List.find?]
    · by_cases hq : q.1 = p.1
      · simp [alistFind, List.find?, hq]
      · simp only [alistFind, List.find?, hq]
        simp only [alistFind] at ih
        simp [hq, ih h]

theorem find_remove_isSome (t : TranslationPage) (kh k : Nat)
    (h : (((t.remove kh).1).find k).isSome = true) : (t.find k).isSome = true := by
  unfold TranslationPage.remove at h
  split at h
  · exact h
  · simp only [TranslationPage.find] at h ⊢
    rw [alistFind_erase] at h
    split at h
    · simp at h
    · exact h

theorem remove_entries_mem (t : TranslationPage) (kh : Nat)
    (p : Nat × MappingEntry) (hp : p ∈ ((t.remove kh).1).entries) : p ∈ t.entries := by
  unfold TranslationPage.remove at hp
  split at hp
  · exact hp
  · exact alistErase_mem _ _ _ hp

theorem remove_tpId (t : TranslationPage) (kh : Nat) : ((t.remove kh).1).tpId = t.tpId := by
  unfold TranslationPage.remove
  split <;> rfl

theorem insert_tpId (t : TranslationPage) (e : MappingEntry) :
    (t.insert e).tpId = t.tpId := by
  unfold TranslationPage.insert
  split <;> simp [remove_tpId]

theorem find_insert_isSome (t : TranslationPage) (e : MappingEntry) (k : Nat)
    (h : ((t.insert e).find k).isSome = true) :
    k = e.keyHash ∨ (t.find k).isSome = true := by
  by_cases hk : k = e.keyHash
  · exact Or.inl hk
  · refine Or.inr ?_
    unfold TranslationPage.insert at h
    split at h
    · simp only [TranslationPage.find] at h ⊢
      rcases hb : alistFind ((t.remove e.keyHash).1).entries k with _ | w
      · rw [alistFind_append_right _ _ _ hb, alistFind_single, if_neg hk] at h
        simp at h
      · exact find_remove_isSome t e.keyHash k (by
          simp [TranslationPage.find, hb])
    · simp only [TranslationPage.find] at h ⊢
      rcases hb : alistFind t.entries k with _ | w
      · rw [alistFind_append_right _ _ _ hb, alistFind_single, if_neg hk] at h
        simp at h
      · simp [hb]

theorem insert_entries_mem (t : TranslationPage) (e : MappingEntry)
    (p : Nat × MappingEntry) (hp : p ∈ (t.insert e).entries) :
    p = (e.keyHash, e) ∨ p ∈ t.entries := by
  unfold TranslationPage.insert at hp
  split at hp <;>
  · simp only at hp
    rcases List.mem_append.mp hp with h | h
    · first
      | exact Or.inr (remove_entries_mem _ _ _ h)
      | exact Or.inr h
    · simp at h
      exact Or.inl (by rcases p with ⟨a, b⟩; simp_all)

theorem getTp_setTp_cases (g : GMD) (t : TranslationPage) (tid : Nat)
    (tp : TranslationPage) (h : (g.setTp t).getTp tid = some tp) :
    (tid = t.tpId ∧ tp = t) ∨ g.getTp tid = some tp := by
  by_cases hx : tid = t.tpId
  · by_cases hs : (g.getTp t.tpId).isSome
    · rw [hx, getTp_setTp_self g t hs] at h
      injection h with he
      exact Or.inl ⟨hx, he.symm⟩
    · have h2 := getTp_setTp_isSome g t tid
      rw [h, hx] at h2
      exact absurd h2.symm hs
  · rw [getTp_setTp_ne g t tid hx] at h
    exact Or.inr h

theorem evictOneInline_entries_mem (t : TranslationPage)
    (p : Nat × MappingEntry) (hp : p ∈ (t.evictOneInline).1.entries) : p ∈ t.entries := by
  unfold TranslationPage.evictOneInline at hp
  split at hp
  · exact hp
  · exact remove_entries_mem _ _ _ hp

theorem evictOneInline_tpId (t : TranslationPage) :
    (t.evictOneInline).1.tpId = t.tpId := by
  unfold TranslationPage.evictOneInline
  split
  · rfl
  · exact remove_tpId _ _

theorem evictOneInline_find_isSome (t : TranslationPage) (k : Nat)
    (h : ((t.evictOneInline).1.find k).isSome = true) : (t.find k).isSome = true := by
  unfold TranslationPage.evictOneInline at h
  split at h
  · exact h
  · exact find_remove_isSome _ _ _ h

theorem evictOneInline_evicted_mem (t : TranslationPage) (tp : TranslationPage)
    (old : MappingEntry) (h : t.evictOneInline = (tp, some old)) :
    ∃ key, (key, old) ∈ t.entries := by
  unfold TranslationPage.evictOneInline at h
  split at h
  · injection h with h1 h2
    exact absurd h2 (by simp)
  · rename_i p hfind
    have hmem : p ∈ t.entries := List.mem_of_find?_eq_some hfind
    unfold TranslationPage.remove at h
    split at h
    · injection h with h1 h2
      exact absurd h2 (by simp)
    · rename_i e hfe
      injection h with h1 h2
      injection h2 with h2
      simp only [TranslationPage.find] at hfe
      rcases hff : t.entries.find? (fun q => decide (q.1 = p.1)) with _ | q
      · simp [alistFind, hff] at hfe
      · have hq : q ∈ t.entries := List.mem_of_find?_eq_some hff
        have hq1 : q.1 = p.1 := by
          have := List.find?_some hff
          simpa using this
        simp only [alistFind, hff] at hfe
        injection hfe with he
        refine ⟨q.1, ?_⟩
        rcases q with ⟨q1, q2⟩
        simp only at he
        have hoq : old = q2 := by rw [← h2, ← he]
        rw [hoq]
        exact hq

/-- setTp with a page whose keyed entries are a subset of the page it
replaces does not add keyed slots. -/
theorem gmdEvolve_setTp_sub (g : GMD) (told tnew : TranslationPage)
    (hid : tnew.tpId = told.tpId)
    (hgot : g.getTp told.tpId = some told)
    (hsub : ∀ k, (tnew.find k).isSome = true → (told.find k).isSome = true)
    (hmem : ∀ p, p ∈ tnew.entries → p ∈ told.entries) :
    gmdEvolve g (g.setTp tnew) := by
  have hsome : (g.getTp tnew.tpId).isSome := by
    rw [hid, hgot]; rfl
  refine ⟨rfl, rfl, ?_, ?_, ?_, ?_⟩
  · intro tid hs
    rw [getTp_setTp_isSome]
    exact hs
  · intro k j hk
    simp only [GMD.slotHasKey] at hk ⊢
    by_cases hx : (g.setTp tnew).getTpId k j = tnew.tpId
    · rw [hx] at hk
      rw [getTp_setTp_self g tnew hsome] at hk
      have : (g.setTp tnew).getTpId k j = g.getTpId k j := rfl
      rw [← this, hx, hid, hgot]
      exact hsub k hk
    · rw [getTp_setTp_ne g tnew _ hx] at hk
      have : (g.setTp tnew).getTpId k j = g.getTpId k j := rfl
      rw [← this]
      exact hk
  · intro hI tid tp htp
    rcases getTp_setTp_cases g tnew tid tp htp with ⟨h1, h2⟩ | hold
    · subst h2
      exact h1.symm
    · exact hI tid tp hold
  · intro hW tid tp htp p hp
    rcases getTp_setTp_cases g tnew tid tp htp with ⟨h1, h2⟩ | hold
    · subst h2
      exact hW told.tpId told hgot p (hmem p hp)
    · exact hW tid tp hold p hp

/-- Inserting an entry into a materialized page preserves the probe
invariant when every probe slot naming that page is anchored. -/
theorem probeInv_setTp_insert (g : GMD) (told : TranslationPage) (e : MappingEntry)
    (hgot : g.getTp told.tpId = some told)
    (hanch : ∀ j', j' < g.maxRetry → g.getTpId e.keyHash j' = told.tpId →
      ∃ j, j ≤ j' ∧ g.getTpId e.keyHash j = g.getTpId e.keyHash j' ∧
        ∀ i, i ≤ j → g.slotMat e.keyHash i = true)
    (hInv : g.probeInv) : (g.setTp (told.insert e)).probeInv := by
  obtain ⟨hId, hW, hJ⟩ := hInv
  have htid : (told.insert e).tpId = told.tpId := insert_tpId told e
  have hsome : (g.getTp (told.insert e).tpId).isSome := by
    rw [htid, hgot]; rfl
  have hgid : ∀ a b, (g.setTp (told.insert e)).getTpId a b = g.getTpId a b :=
    fun _ _ => rfl
  have hmatEq : ∀ k i, (g.setTp (told.insert e)).slotMat k i = g.slotMat k i := by
    intro k i
    simp only [GMD.slotMat]
    rw [show (g.setTp (told.insert e)).getTpId k i = g.getTpId k i from rfl]
    rw [getTp_setTp_isSome]
  refine ⟨?_, ?_, ?_⟩
  · intro tid tp htp
    rcases getTp_setTp_cases g _ tid tp htp with ⟨h1, h2⟩ | hold
    · subst h2
      rw [h1, htid, hId told.tpId told hgot]
    · exact hId tid tp hold
  · intro tid tp htp p hp
    rcases getTp_setTp_cases g _ tid tp htp with ⟨h1, h2⟩ | hold
    · subst h2
      rcases insert_entries_mem told e p hp with h' | h'
      · subst h'
        rfl
      · exact hW told.tpId told hgot p h'
    · exact hW tid tp hold p hp
  · intro k j' hj hk
    have hjg : j' < g.maxRetry := hj
    have htpid : (g.setTp (told.insert e)).getTpId k j' = g.getTpId k j' := rfl
    simp only [GMD.slotHasKey] at hk
    rw [htpid] at hk
    by_cases hx : g.getTpId k j' = told.tpId
    · have hset : (g.setTp (told.insert e)).getTp told.tpId = some (told.insert e) := by
        rw [← htid]
        exact getTp_setTp_self g (told.insert e) hsome
      rw [hx, hset] at hk
      rcases find_insert_isSome told e k hk with hke | hkold
      · subst hke
        obtain ⟨j, hjle, hteq, hpre⟩ := hanch j' hjg hx
        refine ⟨j, hjle, ?_, fun i hi => ?_⟩
        · rw [hgid, hgid]
          exact hteq
        · rw [hmatEq]
          exact hpre i hi
      · have : g.slotHasKey k j' = true := by
          simp only [GMD.slotHasKey]
          rw [hx, hgot]
          exact hkold
        obtain ⟨j, hjle, hteq, hpre⟩ := hJ k j' hjg this
        refine ⟨j, hjle, hteq, fun i hi => ?_⟩
        rw [hmatEq]
        exact hpre i hi
    · rw [getTp_setTp_ne g _ _ (htid ▸ hx)] at hk
      have : g.slotHasKey k j' = true := by
        simp only [GMD.slotHasKey]
        rcases hb : g.getTp (g.getTpId k j') with _ | w
        · rw [hb] at hk
          exact hk
        · rw [hb] at hk
          exact hk
      obtain ⟨j, hjle, hteq, hpre⟩ := hJ k j' hjg this
      refine ⟨j, hjle, hteq, fun i hi => ?_⟩
      rw [hmatEq]
      exact hpre i hi

theorem anchor_of_probe (g : GMD) (k tid j0 : Nat)
    (h1 : g.getTpId k j0 = tid)
    (h2 : ∀ i, i ≤ j0 → g.slotMat k i = true) :
    ∀ j', j' < g.maxRetry → g.getTpId k j' = tid →
      ∃ j, j ≤ j' ∧ g.getTpId k j = g.getTpId k j' ∧
        ∀ i, i ≤ j → g.slotMat k i = true := by
  intro j' _ htid'
  rcases le_or_lt j0 j' with hle | hlt
  · exact ⟨j0, hle, h1.trans htid'.symm, h2⟩
  · exact ⟨j', le_rfl, rfl, fun i hi => h2 i (le_trans hi (le_of_lt hlt))⟩

theorem anchor_grows (g g' : GMD) (hgr : gmdGrows g g') (k tid : Nat)
    (h : ∀ j', j' < g.maxRetry → g.getTpId k j' = tid →
      ∃ j, j ≤ j' ∧ g.getTpId k j = g.getTpId k j' ∧
        ∀ i, i ≤ j → g.slotMat k i = true) :
    ∀ j', j' < g'.maxRetry → g'.getTpId k j' = tid →
      ∃ j, j ≤ j' ∧ g'.getTpId k j = g'.getTpId k j' ∧
        ∀ i, i ≤ j → g'.slotMat k i = true := by
  intro j' hj htid
  rw [getTpId_congr g g' hgr.1] at htid
  obtain ⟨j, hjle, hteq, hpre⟩ := h j' (hgr.2.1 ▸ hj) htid
  refine ⟨j, hjle, ?_, fun i hi => ?_⟩
  · rw [getTpId_congr g g' hgr.1, getTpId_congr g g' hgr.1]
    exact hteq
  · exact slotMat_grows g g' hgr k i (hpre i hi)

theorem alistFind_map_snd {α β : Type} (l : List (Nat × α)) (F : α → β) (k : Nat) :
    alistFind (l.map (fun p => (p.1, F p.2))) k = (alistFind l k).map F := by
  induction l with
  | nil => simp [alistFind]
  | cons p rest ih =>
    by_cases h : p.1 = k
    · simp [alistFind, List.find?, h]
    · simp only [List.map_cons]
      rw [show alistFind ((p.1, F p.2) :: List.map (fun p => (p.1, F p.2)) rest) k
            = alistFind (List.map (fun p => (p.1, F p.2)) rest) k from by
          simp [alistFind, List.find?_cons_of_neg, h],
        show alistFind (p :: rest) k = alistFind rest k from by
          simp [alistFind, List.find?_cons_of_neg, h]]
      exact ih

theorem relocateTpPageList_find (l : List (Nat × TranslationPage)) (o n tid : Nat) :
    alistFind (KVState.relocateTpPageList l o n) tid = alistFind l tid ∨
    ∃ t, alistFind l tid = some t ∧
      alistFind (KVState.relocateTpPageList l o n) tid = some { t with flashPageId := n } := by
  induction l with
  | nil => exact Or.inl rfl
  | cons p rest ih =>
    rcases p with ⟨k', t'⟩
    unfold KVState.relocateTpPageList
    by_cases hfp : t'.flashPageId = o
    · rw [if_pos hfp]
      by_cases hk : k' = tid
      · subst hk
        refine Or.inr ⟨t', ?_, ?_⟩ <;> simp [alistFind, List.find?]
      · refine Or.inl ?_
        simp [alistFind, List.find?, hk]
    · rw [if_neg hfp]
      by_cases hk : k' = tid
      · subst hk
        refine Or.inl ?_
        simp [alistFind, List.find?]
      · simp only [alistFind, List.find?] at ih ⊢
        rcases ih with h | ⟨t, h1, h2⟩
        · refine Or.inl ?_
          simp [hk, h]
        · refine Or.inr ⟨t, ?_, ?_⟩ <;> simp_all [hk]

theorem gmdEvolve_relocateTpPage {σ : Type} (s : KVState σ) (o n : Nat) :
    gmdEvolve s.gmd (s.relocateTpPage o n).gmd := by
  refine ⟨rfl, rfl, ?_, ?_, ?_, ?_⟩
  · intro tid hs
    simp only [KVState.relocateTpPage, GMD.getTp] at hs ⊢
    rcases relocateTpPageList_find s.gmd.pages o n tid with h | ⟨t, h1, h2⟩
    · rw [h]; exact hs
    · rw [h2]; rfl
  · intro k j hk
    simp only [KVState.relocateTpPage, GMD.slotHasKey, GMD.getTp, GMD.getTpId] at hk ⊢
    rcases relocateTpPageList_find s.gmd.pages o n (smod (k + j * j) s.gmd.numTps)
        with h | ⟨t, h1, h2⟩
    · rw [h] at hk; exact hk
    · rw [h2] at hk
      rw [h1]
      exact hk
  · intro hI tid tp htp
    simp only [KVState.relocateTpPage, GMD.getTp] at htp
    rcases relocateTpPageList_find s.gmd.pages o n tid with h | ⟨t, h1, h2⟩
    · rw [h] at htp
      exact hI tid tp htp
    · rw [h2] at htp
      injection htp with he
      subst he
      exact hI tid t h1
  · intro hW tid tp htp p hp
    simp only [KVState.relocateTpPage, GMD.getTp] at htp
    rcases relocateTpPageList_find s.gmd.pages o n tid with h | ⟨t, h1, h2⟩
    · rw [h] at htp
      exact hW tid tp htp p hp
    · rw [h2] at htp
      injection htp with he
      subst he
      exact hW tid t h1 p hp

theorem gmdEvolve_relocateDataPage {σ : Type} (s : KVState σ) (o n : Nat) :
    gmdEvolve s.gmd (s.relocateDataPage o n).gmd := by
  have hfind : ∀ tid, (s.relocateDataPage o n).gmd.getTp tid =
      (s.gmd.getTp tid).map (fun t =>
        { t with entries := t.entries.map (fun q =>
            if ¬q.2.isInline ∧ q.2.dataPageId = (o : Int) then
              (q.1, { q.2 with dataPageId := (n : Int) })
            else q) }) := by
    intro tid
    simp only [KVState.relocateDataPage, GMD.getTp]
    exact alistFind_map_snd s.gmd.pages
      (fun (t : TranslationPage) =>
        { t with entries := t.entries.map (fun (q : Nat × MappingEntry) =>
            if ¬q.2.isInline ∧ q.2.dataPageId = (o : Int) then
              (q.1, { q.2 with dataPageId := (n : Int) })
            else q) })
      tid
  have hentry : ∀ (t : TranslationPage) (k : Nat),
      ((alistFind (t.entries.map (fun q =>
        if ¬q.2.isInline ∧ q.2.dataPageId = (o : Int) then
          (q.1, { q.2 with dataPageId := (n : Int) })
        else q)) k).isSome) = (alistFind t.entries k).isSome := by
    intro t k
    have : (t.entries.map (fun q =>
        if ¬q.2.isInline ∧ q.2.dataPageId = (o : Int) then
          (q.1, { q.2 with dataPageId := (n : Int) })
        else q)) = t.entries.map (fun q => (q.1,
          if ¬q.2.isInline ∧ q.2.dataPageId = (o : Int) then
            { q.2 with dataPageId := (n : Int) }
          else q.2)) := by
      apply List.map_congr_left
      intro q _
      split
      · rfl
      · rfl
    rw [this, alistFind_map_snd t.entries (fun (e : MappingEntry) =>
      if ¬e.isInline ∧ e.dataPageId = (o : Int) then
        { e with dataPageId := (n : Int) }
      else e) k]
    rcases alistFind t.entries k with _ | w <;> rfl
  refine ⟨rfl, rfl, ?_, ?_, ?_, ?_⟩
  · intro tid hs
    rw [hfind]
    rcases hb : s.gmd.getTp tid with _ | w
    · rw [hb] at hs; simp at hs
    · rfl
  · intro k j hk
    simp only [GMD.slotHasKey, GMD.getTpId] at hk ⊢
    rw [hfind] at hk
    rw [show (s.relocateDataPage o n).gmd.numTps = s.gmd.numTps from rfl] at hk
    rcases hb : s.gmd.getTp (smod (k + j * j) s.gmd.numTps) with _ | w
    · rw [hb] at hk; simp at hk
    · rw [hb] at hk
      simp only [Option.map] at hk
      simp only [TranslationPage.find] at hk ⊢
      rw [hentry] at hk
      exact hk
  · intro hI tid tp htp
    rw [hfind] at htp
    rcases hb : s.gmd.getTp tid with _ | w
    · rw [hb] at htp; simp at htp
    · rw [hb] at htp
      simp only [Option.map] at htp
      injection htp with he
      subst he
      exact hI tid w hb
  · intro hW tid tp htp p hp
    rw [hfind] at htp
    rcases hb : s.gmd.getTp tid with _ | w
    · rw [hb] at htp; simp at htp
    · rw [hb] at htp
      simp only [Option.map] at htp
      injection htp with he
      subst he
      simp only [List.mem_map] at hp
      obtain ⟨q, hq, hqe⟩ := hp
      have := hW tid w hb q hq
      subst hqe
      split
      · exact this
      · exact this

theorem gmdEvolve_relocateAll {σ : Type} (l : List (Nat × PageType)) :
    ∀ (s s' : KVState σ), s.relocateAll l = .ok s' →
      gmdEvolve s.gmd s'.gmd := by
  induction l with
  | nil =>
    intro s s' h
    injection h with h'
    subst h'
    exact gmdEvolve_refl _
  | cons p rest ih =>
    intro s s' h
    unfold KVState.relocateAll at h
    dsimp only at h
    split at h
    · exact absurd h (by simp)
    · have h2 := ih _ _ h
      rcases p with ⟨pid, ty⟩
      cases ty
      · refine gmdEvolve_trans _ _ _ ?_ h2
        exact gmdEvolve_relocateDataPage _ _ _
      · refine gmdEvolve_trans _ _ _ ?_ h2
        exact gmdEvolve_relocateTpPage _ _ _

theorem gmdEvolve_collectBlock {σ : Type} (s : KVState σ) (bid : Nat) (s' : KVState σ)
    (h : s.collectBlock bid = .ok s') : gmdEvolve s.gmd s'.gmd := by
  unfold KVState.collectBlock at h
  dsimp only at h
  rcases hra : KVState.relocateAll
      { s with metrics := { s.metrics with gcInvocations := s.metrics.gcInvocations + 1 } }
      (s.flash.validPagesInBlock bid) with _ | s₂
  · rw [hra] at h
    exact absurd h (by simp)
  · rw [hra] at h
    have h2 := gmdEvolve_relocateAll _ _ _ hra
    simp only [except_bind_ok] at h
    injection h with h'
    subst h'
    exact h2

theorem gmdEvolve_gcRun {σ : Type} (m : Nat) :
    ∀ (s : KVState σ) (force : Bool) (r : Nat) (s' : KVState σ),
      s.gcRun m force = .ok (r, s') → gmdEvolve s.gmd s'.gmd := by
  induction m with
  | zero =>
    intro s force r s' h
    injection h with h'
    injection h' with h1 h2
    subst h2
    exact gmdEvolve_refl _
  | succ m ih =>
    intro s force r s' h
    unfold KVState.gcRun at h
    dsimp only at h
    split at h
    · injection h with h'
      injection h' with h1 h2
      subst h2
      exact gmdEvolve_refl _
    · split at h
      · injection h with h'
        injection h' with h1 h2
        subst h2
        exact gmdEvolve_refl _
      · rcases hcb : s.collectBlock _ with _ | s₂
        · rw [hcb] at h
          simp [exbinderr] at h
        · rw [hcb] at h
          simp only [except_bind_ok] at h
          rcases hgr : s₂.gcRun m false with _ | rs
          · rw [hgr] at h
            simp [exbinderr] at h
          · rcases rs with ⟨r₂, s₃⟩
            rw [hgr] at h
            simp only [except_bind_ok] at h
            injection h with h'
            injection h' with h1 h2
            subst h2
            exact gmdEvolve_trans _ _ _ (gmdEvolve_collectBlock _ _ _ hcb) (ih _ _ _ _ hgr)

theorem gmdEvolve_allocateWithGc {σ : Type} (s : KVState σ) (pid : Nat) (s' : KVState σ)
    (h : s.allocateWithGc = .ok (pid, s')) : gmdEvolve s.gmd s'.gmd := by
  unfold KVState.allocateWithGc at h
  split at h
  · injection h with h'
    injection h' with h1 h2
    subst h2
    exact gmdEvolve_refl _
  · rcases hgr : s.gcRun s.flash.totalBlocks true with _ | rs
    · rw [hgr] at h
      simp [exbinderr] at h
    · rcases rs with ⟨r, s₂⟩
      rw [hgr] at h
      simp only [except_bind_ok] at h
      have h2 := gmdEvolve_gcRun _ _ _ _ _ hgr
      split at h
      · exact absurd h (by simp)
      · split at h
        · injection h with h'
          injection h' with h1 h2
          subst h2
          exact h2
        · exact absurd h (by simp)

theorem gmd_freeOldEntry {σ : Type} (s : KVState σ) (kh : Nat) :
    (s.freeOldEntry kh).gmd = s.gmd := by
  unfold KVState.freeOldEntry
  split
  · split <;> rfl
  · rfl

theorem gmd_sendFeedback {σ : Type} (P : Policy σ) (s : KVState σ)
    (e : MappingEntry) (fr : Nat) :
    (KVState.sendFeedback P s e fr).gmd = s.gmd := by
  unfold KVState.sendFeedback
  split <;> rfl

theorem gmd_get {σ : Type} (P : Policy σ) (s : KVState σ)
    (kh : Nat) (b : Bool) (s' : KVState σ)
    (h : KVState.get P s kh = .ok (b, s')) : s'.gmd = s.gmd := by
  unfold KVState.get at h
  dsimp only at h
  rcases hcl : CMT.lookup _ kh with ⟨hit, cmt⟩
  rw [hcl] at h
  dsimp only at h
  cases hit with
  | some e =>
    split at h
    · injection h with h'
      injection h' with h1 h2
      subst h2
      split <;> rfl
    · contradiction
  | none =>
    dsimp only at h
    rcases hfe : GMD.findEntry _ kh with _ | te
    · rw [hfe] at h
      dsimp only at h
      injection h with h'
      injection h' with h1 h2
      subst h2
      rfl
    · rcases te with ⟨t, e⟩
      rw [hfe] at h
      dsimp only at h
      split at h
      · injection h with h'
        injection h' with h1 h2
        subst h2
        simp [gmd_sendFeedback]
      · split at h
        · exact absurd h (by simp)
        · injection h with h'
          injection h' with h1 h2
          subst h2
          simp [gmd_sendFeedback]

theorem findEntryFrom_getTp (g : GMD) (kh : Nat) :
    ∀ (fuel r : Nat) (t : TranslationPage) (e : MappingEntry),
      g.findEntryFrom kh r fuel = some (t, e) →
      ∃ r', g.getTp (g.getTpId kh r') = some t := by
  intro fuel
  induction fuel with
  | zero =>
    intro r t e h
    unfold GMD.findEntryFrom at h
    exact absurd h (by simp)
  | succ fuel ih =>
    intro r t e h
    unfold GMD.findEntryFrom at h
    rcases hget : g.getTp (g.getTpId kh r) with _ | t0
    · rw [hget] at h
      exact absurd h (by simp)
    · rw [hget] at h
      dsimp only at h
      rcases hf : t0.find kh with _ | e0
      · rw [hf] at h
        dsimp only at h
        exact ih (r + 1) t e h
      · rw [hf] at h
        dsimp only at h
        injection h with h'
        injection h' with h1 h2
        subst h1
        exact ⟨r, hget⟩

theorem findEntryFrom_succeeds (g : GMD) (k : Nat) :
    ∀ (fuel r j : Nat), r ≤ j → j < r + fuel →
      (∀ i, r ≤ i → i ≤ j → g.slotMat k i = true) →
      g.slotHasKey k j = true →
      (g.findEntryFrom k r fuel).isSome = true := by
  intro fuel
  induction fuel with
  | zero =>
    intro r j h1 h2 _ _
    omega
  | succ fuel ih =>
    intro r j h1 h2 hmat hk
    unfold GMD.findEntryFrom
    have hmr : g.slotMat k r = true := hmat r le_rfl h1
    simp only [GMD.slotMat] at hmr
    rcases hget : g.getTp (g.getTpId k r) with _ | t0
    · rw [hget] at hmr
      simp at hmr
    · dsimp only
      rcases hf : t0.find k with _ | e0
      · dsimp only
        have hne : g.getTpId k r ≠ g.getTpId k j := by
          intro heq
          simp only [GMD.slotHasKey] at hk
          rw [← heq, hget] at hk
          simp [hf] at hk
        have hrj : r < j := by
          rcases Nat.lt_or_ge r j with h | h
          · exact h
          · have : r = j := le_antisymm h1 h
            exact absurd (this ▸ rfl) hne
        exact ih (r + 1) j hrj (by omega) (fun i hi1 hi2 => hmat i (by omega) hi2) hk
      · rfl

theorem gmdEvolve_delete {σ : Type} (P : Policy σ) (s : KVState σ)
    (kh : Nat) (b : Bool) (s' : KVState σ)
    (h : KVState.delete P s kh = .ok (b, s'))
    (hId : s.gmd.idConsistent) : gmdEvolve s.gmd s'.gmd := by
  unfold KVState.delete at h
  dsimp only at h
  rcases hfe : GMD.findEntry s.gmd kh with _ | te
  · rw [hfe] at h
    dsimp only at h
    injection h with h'
    injection h' with h1 h2
    subst h2
    exact gmdEvolve_refl _
  · rcases te with ⟨t, e⟩
    rw [hfe] at h
    dsimp only at h
    obtain ⟨r', hr'⟩ := findEntryFrom_getTp s.gmd kh s.gmd.maxRetry 0 t e hfe
    have htid : t.tpId = s.gmd.getTpId kh r' := hId _ _ hr'
    have hgot : s.gmd.getTp t.tpId = some t := by rw [htid]; exact hr'
    have htpby : s.tpById t = t := by
      unfold KVState.tpById
      rw [hgot]
      rfl
    have hev : gmdEvolve s.gmd (s.gmd.setTp ((s.tpById t).remove kh).1) := by
      rw [htpby]
      exact gmdEvolve_setTp_sub s.gmd t ((t.remove kh).1) (remove_tpId t kh) hgot
        (fun k hk => find_remove_isSome t kh k hk)
        (fun p hp => remove_entries_mem t kh p hp)
    split at h
    · injection h with h'
      injection h' with h1 h2
      subst h2
      exact hev
    · split at h <;>
      · injection h with h'
        injection h' with h1 h2
        subst h2
        exact hev

theorem gmdGrows_setTp (g : GMD) (t : TranslationPage) : gmdGrows g (g.setTp t) :=
  ⟨rfl, rfl, fun tid h => by rw [getTp_setTp_isSome]; exact h⟩

theorem putRegular_probeInv {σ : Type} (P : Policy σ) (s : KVState σ)
    (kh ks vs : Nat) (b : Bool) (s' : KVState σ)
    (h : KVState.putRegular P s kh ks vs = .ok (b, s'))
    (hInv : s.gmd.probeInv) :
    s'.gmd.probeInv ∧ gmdGrows s.gmd s'.gmd := by
  unfold KVState.putRegular at h
  dsimp only at h
  rcases hf : s.gmd.findTpForInsert s.flash kh 1 with _ | r0
  · rw [hf] at h
    simp [exbinderr] at h
  · rcases r0 with ⟨found, g, f⟩
    rw [hf] at h
    simp only [except_bind_ok] at h
    obtain ⟨hev1, hfound⟩ :=
      findTpForInsertFrom_spec kh 1 s.gmd.maxRetry 0 s.gmd s.flash found g f hf hInv.1
    have hInv1 : g.probeInv := probeInv_evolve _ _ hev1 hInv
    cases found with
    | none =>
      dsimp only at h
      injection h with h'
      injection h' with h1 h2
      subst h2
      exact ⟨hInv1, gmdGrows_of_evolve _ _ hev1⟩
    | some tpRef =>
      dsimp only at h
      obtain ⟨hget1, j0, hj00, htid0, hpre0⟩ := hfound tpRef rfl
      rcases ha : KVState.allocateWithGc
          { s with gmd := g, flash := f } with _ | pf
      · rw [ha] at h
        simp [exbinderr] at h
      · rcases pf with ⟨pid, s₂⟩
        rw [ha] at h
        simp only [except_bind_ok] at h
        have hev2 : gmdEvolve g s₂.gmd := gmdEvolve_allocateWithGc _ _ _ ha
        have hInv2 : s₂.gmd.probeInv := probeInv_evolve _ _ hev2 hInv1
        have hsome2 : (s₂.gmd.getTp tpRef.tpId).isSome = true := by
          refine hev2.2.2.1 _ ?_
          rw [hget1]
          rfl
        rcases hb : s₂.gmd.getTp tpRef.tpId with _ | told
        · rw [hb] at hsome2
          simp at hsome2
        · have htoldid : told.tpId = tpRef.tpId := hInv2.1 _ _ hb
          have htpby : KVState.tpById s₂ tpRef = told := by
            unfold KVState.tpById
            rw [hb]
            rfl
          have hanch2 : ∀ j', j' < s₂.gmd.maxRetry →
              s₂.gmd.getTpId kh j' = told.tpId →
              ∃ j, j ≤ j' ∧ s₂.gmd.getTpId kh j = s₂.gmd.getTpId kh j' ∧
                ∀ i, i ≤ j → s₂.gmd.slotMat kh i = true := by
            rw [htoldid]
            exact anchor_grows g s₂.gmd (gmdGrows_of_evolve _ _ hev2) kh tpRef.tpId
              (anchor_of_probe g kh tpRef.tpId j0 htid0
                (fun i hi => hpre0 i (Nat.zero_le i) hi))
          split at h
          · exact absurd h (by simp)
          · injection h with h'
            injection h' with h1 h2
            subst h2
            constructor
            · simp only [KVState.tpById, hb, Option.getD_some]
              exact probeInv_setTp_insert s₂.gmd told _ (htoldid ▸ hb) hanch2 hInv2
            · refine gmdGrows_trans _ _ _ (gmdGrows_of_evolve _ _ hev1) ?_
              refine gmdGrows_trans _ _ _ (gmdGrows_of_evolve _ _ hev2) ?_
              exact gmdGrows_setTp _ _

theorem putInlineFinish_probeInv {σ : Type} (s : KVState σ) (tpRef : TranslationPage)
    (kh ks vs fr : Nat) (b : Bool) (s' : KVState σ)
    (h : s.putInlineFinish tpRef kh ks vs fr = .ok (b, s'))
    (hInv : s.gmd.probeInv)
    (hsome : (s.gmd.getTp tpRef.tpId).isSome = true)
    (hanch : ∀ j', j' < s.gmd.maxRetry → s.gmd.getTpId kh j' = tpRef.tpId →
      ∃ j, j ≤ j' ∧ s.gmd.getTpId kh j = s.gmd.getTpId kh j' ∧
        ∀ i, i ≤ j → s.gmd.slotMat kh i = true) :
    s'.gmd.probeInv ∧ gmdGrows s.gmd s'.gmd := by
  unfold KVState.putInlineFinish at h
  dsimp only at h
  injection h with h'
  injection h' with h1 h2
  subst h2
  rcases hb : s.gmd.getTp tpRef.tpId with _ | told
  · rw [hb] at hsome
    simp at hsome
  · have htoldid : told.tpId = tpRef.tpId := hInv.1 _ _ hb
    constructor
    · simp only [KVState.tpById, hb, Option.getD_some]
      refine probeInv_setTp_insert s.gmd told _ (htoldid ▸ hb) ?_ hInv
      rw [htoldid]
      exact hanch
    · exact gmdGrows_setTp _ _

theorem convertToRegular_probeInv {σ : Type} (P : Policy σ) (s : KVState σ)
    (tpRef : TranslationPage) (old : MappingEntry) (s' : KVState σ)
    (h : KVState.convertToRegular P s tpRef old = .ok s')
    (hInv : s.gmd.probeInv)
    (hsome : (s.gmd.getTp tpRef.tpId).isSome = true)
    (hanch : ∀ j', j' < s.gmd.maxRetry → s.gmd.getTpId old.keyHash j' = tpRef.tpId →
      ∃ j, j ≤ j' ∧ s.gmd.getTpId old.keyHash j = s.gmd.getTpId old.keyHash j' ∧
        ∀ i, i ≤ j → s.gmd.slotMat old.keyHash i = true) :
    s'.gmd.probeInv ∧ gmdGrows s.gmd s'.gmd := by
  unfold KVState.convertToRegular at h
  dsimp only at h
  rcases ha : s.allocateWithGc with _ | pf
  · rw [ha] at h
    simp [exbinderr] at h
  · rcases pf with ⟨pid, s₂⟩
    rw [ha] at h
    simp only [except_bind_ok] at h
    have hev2 : gmdEvolve s.gmd s₂.gmd := gmdEvolve_allocateWithGc _ _ _ ha
    have hInv2 : s₂.gmd.probeInv := probeInv_evolve _ _ hev2 hInv
    have hsome2 : (s₂.gmd.getTp tpRef.tpId).isSome = true := hev2.2.2.1 _ hsome
    rcases hb : s₂.gmd.getTp tpRef.tpId with _ | told
    · rw [hb] at hsome2
      simp at hsome2
    · have htoldid : told.tpId = tpRef.tpId := hInv2.1 _ _ hb
      have hanch2 : ∀ j', j' < s₂.gmd.maxRetry →
          s₂.gmd.getTpId old.keyHash j' = told.tpId →
          ∃ j, j ≤ j' ∧ s₂.gmd.getTpId old.keyHash j = s₂.gmd.getTpId old.keyHash j' ∧
            ∀ i, i ≤ j → s₂.gmd.slotMat old.keyHash i = true := by
        rw [htoldid]
        exact anchor_grows s.gmd s₂.gmd (gmdGrows_of_evolve _ _ hev2) old.keyHash
          tpRef.tpId hanch
      split at h
      · exact absurd h (by simp)
      · injection h with h'
        subst h'
        constructor
        · simp only [KVState.tpById, hb, Option.getD_some]
          exact probeInv_setTp_insert s₂.gmd told _ (htoldid ▸ hb) hanch2 hInv2
        · refine gmdGrows_trans _ _ _ (gmdGrows_of_evolve _ _ hev2) ?_
          exact gmdGrows_setTp _ _

theorem putInline_probeInv {σ : Type} (P : Policy σ) (s : KVState σ)
    (kh ks vs : Nat) (b : Bool) (s' : KVState σ)
    (h : KVState.putInline P s kh ks vs = .ok (b, s'))
    (hInv : s.gmd.probeInv) :
    s'.gmd.probeInv ∧ gmdGrows s.gmd s'.gmd := by
  unfold KVState.putInline at h
  dsimp only at h
  rcases hf : s.gmd.findTpForInsert s.flash kh
      (s.gmd.computeFrames (12 + ks + vs)) with _ | r0
  · rw [hf] at h
    simp [exbinderr] at h
  · rcases r0 with ⟨found, g, f⟩
    rw [hf] at h
    simp only [except_bind_ok] at h
    obtain ⟨hev1, hfound⟩ :=
      findTpForInsertFrom_spec kh _ s.gmd.maxRetry 0 s.gmd s.flash found g f hf hInv.1
    have hInv1 : g.probeInv := probeInv_evolve _ _ hev1 hInv
    cases found with
    | none =>
      dsimp only at h
      obtain ⟨p1, p2⟩ := putRegular_probeInv P _ kh ks vs _ s' h hInv1
      exact ⟨p1, gmdGrows_trans _ _ _ (gmdGrows_of_evolve _ _ hev1) p2⟩
    | some tpRef =>
      dsimp only at h
      obtain ⟨hget1, j0, hj00, htid0, hpre0⟩ := hfound tpRef rfl
      have hanch1 : ∀ j', j' < g.maxRetry → g.getTpId kh j' = tpRef.tpId →
          ∃ j, j ≤ j' ∧ g.getTpId kh j = g.getTpId kh j' ∧
            ∀ i, i ≤ j → g.slotMat kh i = true :=
        anchor_of_probe g kh tpRef.tpId j0 htid0 (fun i hi => hpre0 i (Nat.zero_le i) hi)
      split at h
      · obtain ⟨p1, p2⟩ := putInlineFinish_probeInv _ tpRef kh ks vs _ _ s' h hInv1
          (by rw [hget1]; rfl) hanch1
        exact ⟨p1, gmdGrows_trans _ _ _ (gmdGrows_of_evolve _ _ hev1) p2⟩
      · rcases hev : (KVState.tpById { s with gmd := g, flash := f } tpRef).evictOneInline
            with ⟨tp, evicted⟩
        rw [hev] at h
        dsimp only at h
        have htpby1 : KVState.tpById { s with gmd := g, flash := f } tpRef = tpRef := by
          unfold KVState.tpById
          dsimp only
          rw [hget1]
          rfl
        have htp : tpRef.evictOneInline = (tp, evicted) := by
          rw [← htpby1]
          exact hev
        have htp1 : (tpRef.evictOneInline).1 = tp := by rw [htp]
        have hevS : gmdEvolve g (g.setTp tp) := by
          rw [← htp1]
          exact gmdEvolve_setTp_sub g tpRef _ (evictOneInline_tpId tpRef) hget1
            (fun k hk => evictOneInline_find_isSome tpRef k hk)
            (fun p hp => evictOneInline_entries_mem tpRef p hp)
        have hInvS : (g.setTp tp).probeInv := probeInv_evolve _ _ hevS hInv1
        have hsomeS : ((g.setTp tp).getTp tpRef.tpId).isSome = true := by
          refine hevS.2.2.1 _ ?_
          rw [hget1]
          rfl
        have hanchS := anchor_grows g (g.setTp tp) (gmdGrows_of_evolve _ _ hevS)
          kh tpRef.tpId hanch1
        have hgrS : gmdGrows s.gmd (g.setTp tp) :=
          gmdGrows_trans _ _ _ (gmdGrows_of_evolve _ _ hev1) (gmdGrows_of_evolve _ _ hevS)
        cases evicted with
        | none =>
          simp only [expure, except_bind_ok] at h
          split at h
          · obtain ⟨p1, p2⟩ := putInlineFinish_probeInv _ tpRef kh ks vs _ _ s' h
              hInvS hsomeS hanchS
            exact ⟨p1, gmdGrows_trans _ _ _ hgrS p2⟩
          · obtain ⟨p1, p2⟩ := putRegular_probeInv P _ kh ks vs _ s' h hInvS
            exact ⟨p1, gmdGrows_trans _ _ _ hgrS p2⟩
        | some old =>
          rw [exbind_ok_iff] at h
          obtain ⟨s₃, hcv, h⟩ := h
          have holdfind : (tpRef.find old.keyHash).isSome = true := by
            obtain ⟨key, hkey⟩ := evictOneInline_evicted_mem tpRef tp old htp
            have hkk : old.keyHash = key := hInv1.2.1 _ _ hget1 (key, old) hkey
            have hm := alistFind_isSome_of_mem tpRef.entries (key, old) hkey
            simp only [TranslationPage.find]
            rw [hkk]
            exact hm
          have hanchOld1 : ∀ j', j' < g.maxRetry →
              g.getTpId old.keyHash j' = tpRef.tpId →
              ∃ j, j ≤ j' ∧ g.getTpId old.keyHash j = g.getTpId old.keyHash j' ∧
                ∀ i, i ≤ j → g.slotMat old.keyHash i = true := by
            intro j' hj htid
            refine hInv1.2.2 old.keyHash j' hj ?_
            simp only [GMD.slotHasKey]
            rw [htid, hget1]
            exact holdfind
          have hanchOldS := anchor_grows g (g.setTp tp) (gmdGrows_of_evolve _ _ hevS)
            old.keyHash tpRef.tpId hanchOld1
          obtain ⟨pc, gc⟩ := convertToRegular_probeInv P _ tpRef old s₃ hcv hInvS
            hsomeS hanchOldS
          have hsome3 : (s₃.gmd.getTp tpRef.tpId).isSome = true := gc.2.2 _ hsomeS
          have hanch3 := anchor_grows _ _ gc kh tpRef.tpId hanchS
          have hgr3 : gmdGrows s.gmd s₃.gmd := gmdGrows_trans _ _ _ hgrS gc
          split at h
          · obtain ⟨p1, p2⟩ := putInlineFinish_probeInv _ tpRef kh ks vs _ _ s' h
              pc hsome3 hanch3
            exact ⟨p1, gmdGrows_trans _ _ _ hgr3 p2⟩
          · obtain ⟨p1, p2⟩ := putRegular_probeInv P _ kh ks vs _ s' h pc
            exact ⟨p1, gmdGrows_trans _ _ _ hgr3 p2⟩

theorem put_probeInv {σ : Type} (P : Policy σ) (s : KVState σ)
    (kh ks vs : Nat) (b : Bool) (s' : KVState σ)
    (h : KVState.put P s kh ks vs = .ok (b, s'))
    (hInv : s.gmd.probeInv) : s'.gmd.probeInv := by
  unfold KVState.put at h
  dsimp only at h
  have hInv4 : ∀ (m : Metrics) (pol : σ) (ep : Nat),
      (KVState.freeOldEntry
        { flash := s.flash, gmd := s.gmd, cmt := s.cmt, metrics := m,
          policy := pol, epoch := ep, gcRetries := s.gcRetries,
          gcThreshold := s.gcThreshold } kh).gmd.probeInv := by
    intro m pol ep
    rw [gmd_freeOldEntry]
    exact hInv
  split at h <;>
  · rw [exbind_ok_iff] at h
    obtain ⟨⟨inserted, s₅⟩, hpi, h⟩ := h
    dsimp only at h
    have hInv5 : s₅.gmd.probeInv := by
      first
      | exact (putInline_probeInv _ _ kh ks vs _ s₅ hpi (by
          simp only [gmd_freeOldEntry]
          exact hInv)).1
      | exact (putRegular_probeInv _ _ kh ks vs _ s₅ hpi (by
          simp only [gmd_freeOldEntry]
          exact hInv)).1
    split at h
    · rw [exbind_ok_iff] at h
      obtain ⟨⟨r, s₆⟩, hgc, h⟩ := h
      dsimp only at h
      injection h with h'
      injection h' with h1 h2
      subst h2
      exact probeInv_evolve _ _ (gmdEvolve_gcRun _ _ _ _ _ hgc) hInv5
    · injection h with h'
      injection h' with h1 h2
      subst h2
      exact hInv5

theorem probeInv_initKV {σ : Type} (cfg : SSDConfig) (pol : σ) :
    (initKV cfg pol).gmd.probeInv := by
  refine ⟨?_, ?_, ?_⟩
  · intro tid tp htp
    simp [initKV, GMD.getTp, alistFind] at htp
  · intro tid tp htp
    simp [initKV, GMD.getTp, alistFind] at htp
  · intro k j' _ hk
    simp [GMD.slotHasKey, initKV, GMD.getTp, alistFind] at hk

theorem reachable_probeInv {σ : Type} (P : Policy σ) (cfg : SSDConfig) (pol : σ)
    (s : KVState σ) (hr : Reachable P (initKV cfg pol) s) : s.gmd.probeInv := by
  induction hr with
  | refl => exact probeInv_initKV cfg pol
  | put hr' hstep ih => exact put_probeInv _ _ _ _ _ _ _ hstep ih
  | get hr' hstep ih =>
    rw [gmd_get _ _ _ _ _ hstep]
    exact ih
  | del hr' hstep ih =>
    exact probeInv_evolve _ _ (gmdEvolve_delete _ _ _ _ _ hstep ih.1) ih

/-- C7 (amended): in every reachable state, any occupied probe slot has an
anchored probe position below which the whole prefix is materialized, so
find_entry - which scans the probe sequence from 0 and stops at the first
unmaterialized slot - never misses an existing entry. -/
theorem c7_find_entry_complete {σ : Type} (P : Policy σ) (cfg : SSDConfig) (pol : σ)
    (s : KVState σ) (hr : Reachable P (initKV cfg pol) s) (k j' : Nat)
    (hj : j' < s.gmd.maxRetry) (hk : s.gmd.slotHasKey k j' = true) :
    (s.gmd.findEntry k).isSome = true := by
  have hInv := reachable_probeInv P cfg pol s hr
  obtain ⟨j, hjle, hteq, hpre⟩ := hInv.2.2 k j' hj hk
  have hkj : s.gmd.slotHasKey k j = true := by
    simp only [GMD.slotHasKey] at hk ⊢
    rw [hteq]
    exact hk
  unfold GMD.findEntry
  exact findEntryFrom_succeeds s.gmd k s.gmd.maxRetry 0 j (Nat.zero_le j)
    (by omega) (fun i _ hi => hpre i (le_trans hi le_rfl)) hkj

/-- C7 counterexample: quadratic probing revisits slots when N is small
(tp_id(0,2) = 4 mod 4 = tp_id(0,0)), so after a single put of key 0 on a
4-TP config the TP at probe index 2 holds key 0 while the slot at the
smaller probe index 1 was never materialized, contradicting the claimed
slot property. -/
theorem c7_counterexample_probe_collision :
    exceptOkFlag (runOps (baselinePolicy 8) (initKV cfgProbe ()) [.put 0 4 4]) = true ∧
    1 < 2 ∧ 2 < c7End.gmd.maxRetry ∧
    c7End.gmd.getTp (c7End.gmd.getTpId 0 1) = none ∧
    c7End.gmd.slotHasKey 0 2 = true := by
  refine ⟨by decide, by decide, by decide, by decide, by decide⟩

theorem c7_find_entry_complete_witness :
    (c7End.gmd.findEntry 0).isSome = true :=
  c7_find_entry_complete (baselinePolicy 8) cfgProbe () c7End
    (Reachable.put Reachable.refl
      (show (initKV cfgProbe ()).put (baselinePolicy 8) 0 4 4 = .ok (true, c7End) from rfl))
    0 2 (by decide) (by decide)

/-- C3 counterexample: from the reachable state c3Pre (keys 64 and 128
fill TP 0, key 0 sits in TP 1, deleting key 64 frees a frame of TP 0),
put(0, vs1); put(0, vs2) completes with both puts inserting, and get(0)
returns true - but the GMD then holds TWO entries for key 0 (the fresh
one in TP 0 and the stale one in TP 1), refuting the exactly-one-entry
part of the claim. -/
theorem c3_duplicate_entries_after_overwrite :
    (match runOps (baselinePolicy 8) (initKV cfgTiny ()) c3Prefix with
     | .ok (true, _) => true
     | _ => false) = true ∧
    (match runOps (baselinePolicy 8) c3Pre c3DupTrace with
     | .ok (true, _) => true
     | _ => false) = true ∧
    c3End.gmd.keyCount 0 = 2 ∧
    (match KVState.get (baselinePolicy 8) c3End 0 with
     | .ok (b, _) => b
     | _ => false) = true := by
  refine ⟨by decide, by decide, by decide, by decide⟩

theorem gmdKeysEq_refl (g : GMD) : gmdKeysEq g g := ⟨rfl, rfl, fun _ _ => rfl, fun _ _ => rfl⟩

theorem gmdKeysEq_trans (g g' g'' : GMD) (h1 : gmdKeysEq g g') (h2 : gmdKeysEq g' g'') :
    gmdKeysEq g g'' :=
  ⟨h2.1.trans h1.1, h2.2.1.trans h1.2.1,
   fun k j => (h2.2.2.1 k j).trans (h1.2.2.1 k j),
   fun k j => (h2.2.2.2 k j).trans (h1.2.2.2 k j)⟩

theorem keyAnchored_keysEq (g g' : GMD) (h : gmdKeysEq g g') (k : Nat)
    (hk : g.keyAnchored k) : g'.keyAnchored k := by
  obtain ⟨j0, h1, h2, h3⟩ := hk
  refine ⟨j0, ?_, ?_, fun i hi => ?_⟩
  · rw [h.2.1]
    exact h1
  · rw [h.2.2.1]
    exact h2
  · rw [h.2.2.2]
    exact h3 i hi

theorem probeTo_grows (g g' : GMD) (hgr : gmdGrows g g') (k tid j0 : Nat)
    (h : probeTo g k tid j0) : probeTo g' k tid j0 := by
  obtain ⟨h1, h2, h3⟩ := h
  refine ⟨hgr.2.1 ▸ h1, ?_, fun i hi => slotMat_grows g g' hgr k i (h3 i hi)⟩
  rw [getTpId_congr g g' hgr.1]
  exact h2

theorem gmdKeysEq_relocateTpPage {σ : Type} (s : KVState σ) (o n : Nat) :
    gmdKeysEq s.gmd (s.relocateTpPage o n).gmd := by
  have hcase : ∀ tid, (s.relocateTpPage o n).gmd.getTp tid = s.gmd.getTp tid ∨
      ∃ t, s.gmd.getTp tid = some t ∧
        (s.relocateTpPage o n).gmd.getTp tid = some { t with flashPageId := n } := by
    intro tid
    simp only [KVState.relocateTpPage, GMD.getTp]
    exact relocateTpPageList_find s.gmd.pages o n tid
  refine ⟨rfl, rfl, ?_, ?_⟩
  · intro k j
    simp only [GMD.slotHasKey, GMD.getTpId]
    rw [show (s.relocateTpPage o n).gmd.numTps = s.gmd.numTps from rfl]
    rcases hcase (smod (k + j * j) s.gmd.numTps) with h | ⟨t, h1, h2⟩
    · rw [h]
    · rw [h1, h2]
      rfl
  · intro k j
    simp only [GMD.slotMat, GMD.getTpId]
    rw [show (s.relocateTpPage o n).gmd.numTps = s.gmd.numTps from rfl]
    rcases hcase (smod (k + j * j) s.gmd.numTps) with h | ⟨t, h1, h2⟩
    · rw [h]
    · rw [h1, h2]
      rfl

theorem gmdKeysEq_relocateDataPage {σ : Type} (s : KVState σ) (o n : Nat) :
    gmdKeysEq s.gmd (s.relocateDataPage o n).gmd := by
  have hfind : ∀ tid, (s.relocateDataPage o n).gmd.getTp tid =
      (s.gmd.getTp tid).map (fun t =>
        { t with entries := t.entries.map (fun q =>
            if ¬q.2.isInline ∧ q.2.dataPageId = (o : Int) then
              (q.1, { q.2 with dataPageId := (n : Int) })
            else q) }) := by
    intro tid
    simp only [KVState.relocateDataPage, GMD.getTp]
    exact alistFind_map_snd s.gmd.pages
      (fun (t : TranslationPage) =>
        { t with entries := t.entries.map (fun (q : Nat × MappingEntry) =>
            if ¬q.2.isInline ∧ q.2.dataPageId = (o : Int) then
              (q.1, { q.2 with dataPageId := (n : Int) })
            else q) })
      tid
  have hentry : ∀ (t : TranslationPage) (k : Nat),
      ((alistFind (t.entries.map (fun q =>
        if ¬q.2.isInline ∧ q.2.dataPageId = (o : Int) then
          (q.1, { q.2 with dataPageId := (n : Int) })
        else q)) k).isSome) = (alistFind t.entries k).isSome := by
    intro t k
    have hmc : (t.entries.map (fun q =>
        if ¬q.2.isInline ∧ q.2.dataPageId = (o : Int) then
          (q.1, { q.2 with dataPageId := (n : Int) })
        else q)) = t.entries.map (fun q => (q.1,
          if ¬q.2.isInline ∧ q.2.dataPageId = (o : Int) then
            { q.2 with dataPageId := (n : Int) }
          else q.2)) := by
      apply List.map_congr_left
      intro q _
      split
      · rfl
      · rfl
    rw [hmc, alistFind_map_snd t.entries (fun (e : MappingEntry) =>
      if ¬e.isInline ∧ e.dataPageId = (o : Int) then
        { e with dataPageId := (n : Int) }
      else e) k]
    rcases alistFind t.entries k with _ | w <;> rfl
  refine ⟨rfl, rfl, ?_, ?_⟩
  · intro k j
    simp only [GMD.slotHasKey, GMD.getTpId]
    rw [show (s.relocateDataPage o n).gmd.numTps = s.gmd.numTps from rfl]
    rw [hfind]
    rcases hb : s.gmd.getTp (smod (k + j * j) s.gmd.numTps) with _ | w
    · rfl
    · simp only [Option.map]
      simp only [TranslationPage.find]
      rw [hentry]
  · intro k j
    simp only [GMD.slotMat, GMD.getTpId]
    rw [show (s.relocateDataPage o n).gmd.numTps = s.gmd.numTps from rfl]
    rw [hfind]
    rcases hb : s.gmd.getTp (smod (k + j * j) s.gmd.numTps) with _ | w <;> rfl

theorem gmdKeysEq_relocateAll {σ : Type} (l : List (Nat × PageType)) :
    ∀ (s s' : KVState σ), s.relocateAll l = .ok s' → gmdKeysEq s.gmd s'.gmd := by
  induction l with
  | nil =>
    intro s s' h
    injection h with h'
    subst h'
    exact gmdKeysEq_refl _
  | cons p rest ih =>
    intro s s' h
    unfold KVState.relocateAll at h
    dsimp only at h
    split at h
    · exact absurd h (by simp)
    · have h2 := ih _ _ h
      rcases p with ⟨pid, ty⟩
      cases ty
      · exact gmdKeysEq_trans _ _ _ (gmdKeysEq_relocateDataPage _ _ _) h2
      · exact gmdKeysEq_trans _ _ _ (gmdKeysEq_relocateTpPage _ _ _) h2

theorem gmdKeysEq_collectBlock {σ : Type} (s : KVState σ) (bid : Nat) (s' : KVState σ)
    (h : s.collectBlock bid = .ok s') : gmdKeysEq s.gmd s'.gmd := by
  unfold KVState.collectBlock at h
  dsimp only at h
  rcases hra : KVState.relocateAll
      { s with metrics := { s.metrics with gcInvocations := s.metrics.gcInvocations + 1 } }
      (s.flash.validPagesInBlock bid) with _ | s₂
  · rw [hra] at h
    exact absurd h (by simp)
  · rw [hra] at h
    have h2 := gmdKeysEq_relocateAll _ _ _ hra
    simp only [except_bind_ok] at h
    injection h with h'
    subst h'
    exact h2

theorem gmdKeysEq_gcRun {σ : Type} (m : Nat) :
    ∀ (s : KVState σ) (force : Bool) (r : Nat) (s' : KVState σ),
      s.gcRun m force = .ok (r, s') → gmdKeysEq s.gmd s'.gmd := by
  induction m with
  | zero =>
    intro s force r s' h
    injection h with h'
    injection h' with h1 h2
    subst h2
    exact gmdKeysEq_refl _
  | succ m ih =>
    intro s force r s' h
    unfold KVState.gcRun at h
    dsimp only at h
    split at h
    · injection h with h'
      injection h' with h1 h2
      subst h2
      exact gmdKeysEq_refl _
    · split at h
      · injection h with h'
        injection h' with h1 h2
        subst h2
        exact gmdKeysEq_refl _
      · rcases hcb : s.collectBlock _ with _ | s₂
        · rw [hcb] at h
          simp [exbinderr] at h
        · rw [hcb] at h
          simp only [except_bind_ok] at h
          rcases hgr : s₂.gcRun m false with _ | rs
          · rw [hgr] at h
            simp [exbinderr] at h
          · rcases rs with ⟨r₂, s₃⟩
            rw [hgr] at h
            simp only [except_bind_ok] at h
            injection h with h'
            injection h' with h1 h2
            subst h2
            exact gmdKeysEq_trans _ _ _ (gmdKeysEq_collectBlock _ _ _ hcb) (ih _ _ _ _ hgr)

theorem alistFind_append_single_isSome {α : Type} (l : List (Nat × α)) (a : Nat) (v : α) :
    (alistFind (l ++ [(a, v)]) a).isSome = true := by
  rcases hb : alistFind l a with _ | w
  · rw [alistFind_append_right _ _ _ hb, alistFind_single]
    simp
  · rw [alistFind_append_left _ _ _ _ hb]
    rfl

theorem find_insert_self (t : TranslationPage) (e : MappingEntry) :
    ((t.insert e).find e.keyHash).isSome = true := by
  unfold TranslationPage.insert
  split <;>
  · simp only [TranslationPage.find]
    exact alistFind_append_single_isSome _ _ _

theorem findTpForInsertFrom_probeTo (k frames : Nat) :
    ∀ (fuel r : Nat) (g : GMD) (f : Flash) (found : Option TranslationPage)
      (g' : GMD) (f' : Flash),
      g.findTpForInsertFrom f k frames r fuel = .ok (found, g', f') →
      g.idConsistent →
      ∀ tpRef, found = some tpRef →
        g'.getTp tpRef.tpId = some tpRef ∧
        ∃ j0, r ≤ j0 ∧ j0 < r + fuel ∧ g'.getTpId k j0 = tpRef.tpId ∧
          ∀ i, r ≤ i → i ≤ j0 → g'.slotMat k i = true := by
  intro fuel
  induction fuel with
  | zero =>
    intro r g f found g' f' h _ tpRef hf
    unfold GMD.findTpForInsertFrom at h
    injection h with h'
    injection h' with h1 h'
    subst h1
    exact absurd hf (by simp)
  | succ fuel ih =>
    intro r g f found g' f' h hId tpRef hfo
    unfold GMD.findTpForInsertFrom at h
    rcases hoc : g.getOrCreateTp f (g.getTpId k r) with _ | tgf
    · rw [hoc] at h
      exact absurd h (by simp)
    · rcases tgf with ⟨t, g₁, f₁⟩
      rw [hoc] at h
      dsimp only at h
      obtain ⟨hev1, hget1, hid1⟩ := getOrCreateTp_spec _ _ _ _ _ _ hoc
      have htid : t.tpId = g.getTpId k r := hid1 hId
      have hnum1 : g₁.numTps = g.numTps := hev1.1
      have hmat1 : g₁.slotMat k r = true := by
        apply slotMat_of_getTp g₁ k r t
        rw [getTpId_congr g g₁ hnum1]
        exact hget1
      split at h
      · injection h with h'
        injection h' with h1 h'
        injection h' with h2 h3
        subst h1; subst h2
        injection hfo with he
        subst he
        refine ⟨by rw [htid]; exact hget1,
          r, le_rfl, by omega, ?_, fun i hri hir => ?_⟩
        · rw [getTpId_congr g g₁ hnum1, htid]
        · have : i = r := le_antisymm hir hri
          subst this
          exact hmat1
      · split at h
        · injection h with h'
          injection h' with h1 h'
          injection h' with h2 h3
          subst h1; subst h2
          injection hfo with he
          subst he
          refine ⟨by rw [htid]; exact hget1,
            r, le_rfl, by omega, ?_, fun i hri hir => ?_⟩
          · rw [getTpId_congr g g₁ hnum1, htid]
          · have : i = r := le_antisymm hir hri
            subst this
            exact hmat1
        · obtain ⟨hget', j0, hj0, hj0lt, htid0, hmatp⟩ :=
            ih (r + 1) g₁ f₁ found g' f' h (hev1.2.2.2.2.1 hId) tpRef hfo
          have hev2 : gmdEvolve g₁ g' := by
            obtain ⟨hev2, _⟩ :=
              findTpForInsertFrom_spec k frames fuel (r + 1) g₁ f₁ found g' f' h
                (hev1.2.2.2.2.1 hId)
            exact hev2
          refine ⟨hget', j0, by omega, by omega, htid0, fun i hri hij => ?_⟩
          rcases Nat.lt_or_ge i (r + 1) with hlt | hge
          · have : i = r := by omega
            subst this
            exact slotMat_evolve g₁ g' hev2 k i hmat1
          · exact hmatp i hge hij

theorem keyAnchored_setTp_insert (g : GMD) (told : TranslationPage) (e : MappingEntry)
    (hb : g.getTp told.tpId = some told)
    (j0 : Nat) (hpt : probeTo g e.keyHash told.tpId j0) :
    (g.setTp (told.insert e)).keyAnchored e.keyHash := by
  obtain ⟨hj0lt, htid0, hpre⟩ := hpt
  have hsome : (g.getTp (told.insert e).tpId).isSome = true := by
    rw [insert_tpId, hb]
    rfl
  have hset : (g.setTp (told.insert e)).getTp told.tpId = some (told.insert e) := by
    rw [← insert_tpId told e]
    exact getTp_setTp_self g _ hsome
  refine ⟨j0, hj0lt, ?_, fun i hi => ?_⟩
  · simp only [GMD.slotHasKey]
    rw [show (g.setTp (told.insert e)).getTpId e.keyHash j0
        = g.getTpId e.keyHash j0 from rfl, htid0, hset]
    exact find_insert_self told e
  · simp only [GMD.slotMat]
    rw [show (g.setTp (told.insert e)).getTpId e.keyHash i
        = g.getTpId e.keyHash i from rfl, getTp_setTp_isSome]
    exact hpre i hi

theorem putInlineFinish_keyAnchored {σ : Type} (s : KVState σ)
    (tpRef told : TranslationPage) (kh ks vs fr : Nat) (b : Bool) (s' : KVState σ)
    (h : s.putInlineFinish tpRef kh ks vs fr = .ok (b, s'))
    (hb : s.gmd.getTp tpRef.tpId = some told)
    (htoldid : told.tpId = tpRef.tpId)
    (j0 : Nat) (hpt : probeTo s.gmd kh tpRef.tpId j0) :
    s'.gmd.keyAnchored kh := by
  unfold KVState.putInlineFinish at h
  dsimp only at h
  injection h with h'
  injection h' with h1 h2
  subst h2
  have hb2 : s.gmd.getTp told.tpId = some told := by
    rw [htoldid]
    exact hb
  have hpt2 : probeTo s.gmd kh told.tpId j0 := by
    rw [htoldid]
    exact hpt
  simp only [KVState.tpById, hb, Option.getD_some]
  exact keyAnchored_setTp_insert s.gmd told _ hb2 j0 hpt2

theorem putRegular_inserted {σ : Type} (P : Policy σ) (s : KVState σ)
    (kh ks vs : Nat) (s' : KVState σ)
    (h : KVState.putRegular P s kh ks vs = .ok (true, s'))
    (hInv : s.gmd.probeInv) : s'.gmd.keyAnchored kh := by
  unfold KVState.putRegular at h
  dsimp only at h
  rcases hf : s.gmd.findTpForInsert s.flash kh 1 with _ | r0
  · rw [hf] at h
    simp [exbinderr] at h
  · rcases r0 with ⟨found, g, f⟩
    rw [hf] at h
    simp only [except_bind_ok] at h
    obtain ⟨hev1, _⟩ :=
      findTpForInsertFrom_spec kh 1 s.gmd.maxRetry 0 s.gmd s.flash found g f hf hInv.1
    have hInv1 : g.probeInv := probeInv_evolve _ _ hev1 hInv
    cases found with
    | none =>
      dsimp only at h
      injection h with h'
      injection h' with h1 h2
      exact absurd h1 (by simp)
    | some tpRef =>
      dsimp only at h
      obtain ⟨hget1, j0, hj00, hj0lt, htid0, hpre0⟩ :=
        findTpForInsertFrom_probeTo kh 1 s.gmd.maxRetry 0 s.gmd s.flash _ g f hf
          hInv.1 tpRef rfl
      have hpt1 : probeTo g kh tpRef.tpId j0 := by
        refine ⟨?_, htid0, fun i hi => hpre0 i (Nat.zero_le i) hi⟩
        have : g.maxRetry = s.gmd.maxRetry := hev1.2.1
        omega
      rcases ha : KVState.allocateWithGc
          { s with gmd := g, flash := f } with _ | pf
      · rw [ha] at h
        simp [exbinderr] at h
      · rcases pf with ⟨pid, s₂⟩
        rw [ha] at h
        simp only [except_bind_ok] at h
        have hev2 : gmdEvolve g s₂.gmd := gmdEvolve_allocateWithGc _ _ _ ha
        have hInv2 : s₂.gmd.probeInv := probeInv_evolve _ _ hev2 hInv1
        have hpt2 : probeTo s₂.gmd kh tpRef.tpId j0 :=
          probeTo_grows _ _ (gmdGrows_of_evolve _ _ hev2) _ _ _ hpt1
        have hsome2 : (s₂.gmd.getTp tpRef.tpId).isSome = true := by
          refine hev2.2.2.1 _ ?_
          rw [hget1]
          rfl
        rcases hb : s₂.gmd.getTp tpRef.tpId with _ | told
        · rw [hb] at hsome2
          simp at hsome2
        · have htoldid : told.tpId = tpRef.tpId := hInv2.1 _ _ hb
          have hb2 : s₂.gmd.getTp told.tpId = some told := by
            rw [htoldid]
            exact hb
          have hpt2' : probeTo s₂.gmd kh told.tpId j0 := by
            rw [htoldid]
            exact hpt2
          split at h
          · exact absurd h (by simp)
          · injection h with h'
            injection h' with h1 h2
            subst h2
            simp only [KVState.tpById, hb, Option.getD_some]
            exact keyAnchored_setTp_insert s₂.gmd told _ hb2 j0 hpt2'

theorem putInline_inserted {σ : Type} (P : Policy σ) (s : KVState σ)
    (kh ks vs : Nat) (s' : KVState σ)
    (h : KVState.putInline P s kh ks vs = .ok (true, s'))
    (hInv : s.gmd.probeInv) : s'.gmd.keyAnchored kh := by
  unfold KVState.putInline at h
  dsimp only at h
  rcases hf : s.gmd.findTpForInsert s.flash kh
      (s.gmd.computeFrames (12 + ks + vs)) with _ | r0
  · rw [hf] at h
    simp [exbinderr] at h
  · rcases r0 with ⟨found, g, f⟩
    rw [hf] at h
    simp only [except_bind_ok] at h
    obtain ⟨hev1, _⟩ :=
      findTpForInsertFrom_spec kh _ s.gmd.maxRetry 0 s.gmd s.flash found g f hf hInv.1
    have hInv1 : g.probeInv := probeInv_evolve _ _ hev1 hInv
    cases found with
    | none =>
      dsimp only at h
      exact putRegular_inserted P _ kh ks vs s' h hInv1
    | some tpRef =>
      dsimp only at h
      obtain ⟨hget1, j0, hj00, hj0lt, htid0, hpre0⟩ :=
        findTpForInsertFrom_probeTo kh _ s.gmd.maxRetry 0 s.gmd s.flash _ g f hf
          hInv.1 tpRef rfl
      have hpt1 : probeTo g kh tpRef.tpId j0 := by
        refine ⟨?_, htid0, fun i hi => hpre0 i (Nat.zero_le i) hi⟩
        have : g.maxRetry = s.gmd.maxRetry := hev1.2.1
        omega
      split at h
      · exact putInlineFinish_keyAnchored _ tpRef tpRef kh ks vs _ _ s' h hget1 rfl
          j0 hpt1
      · rcases hev : (KVState.tpById { s with gmd := g, flash := f } tpRef).evictOneInline
            with ⟨tp, evicted⟩
        rw [hev] at h
        dsimp only at h
        have htpby1 : KVState.tpById { s with gmd := g, flash := f } tpRef = tpRef := by
          unfold KVState.tpById
          dsimp only
          rw [hget1]
          rfl
        have htp : tpRef.evictOneInline = (tp, evicted) := by
          rw [← htpby1]
          exact hev
        have htp1 : (tpRef.evictOneInline).1 = tp := by rw [htp]
        have hevS : gmdEvolve g (g.setTp tp) := by
          rw [← htp1]
          exact gmdEvolve_setTp_sub g tpRef _ (evictOneInline_tpId tpRef) hget1
            (fun k hk => evictOneInline_find_isSome tpRef k hk)
            (fun p hp => evictOneInline_entries_mem tpRef p hp)
        have hInvS : (g.setTp tp).probeInv := probeInv_evolve _ _ hevS hInv1
        have hsomeS : ((g.setTp tp).getTp tpRef.tpId).isSome = true := by
          refine hevS.2.2.1 _ ?_
          rw [hget1]
          rfl
        have hptS : probeTo (g.setTp tp) kh tpRef.tpId j0 :=
          probeTo_grows _ _ (gmdGrows_of_evolve _ _ hevS) _ _ _ hpt1
        cases evicted with
        | none =>
          simp only [expure, except_bind_ok] at h
          split at h
          · rcases hbS : (g.setTp tp).getTp tpRef.tpId with _ | toldS
            · rw [hbS] at hsomeS
              simp at hsomeS
            · exact putInlineFinish_keyAnchored _ tpRef toldS kh ks vs _ _ s' h hbS
                (hInvS.1 _ _ hbS) j0 hptS
          · exact putRegular_inserted P _ kh ks vs s' h hInvS
        | some old =>
          rw [exbind_ok_iff] at h
          obtain ⟨s₃, hcv, h⟩ := h
          have holdfind : (tpRef.find old.keyHash).isSome = true := by
            obtain ⟨key, hkey⟩ := evictOneInline_evicted_mem tpRef tp old htp
            have hkk : old.keyHash = key := hInv1.2.1 _ _ hget1 (key, old) hkey
            have hm := alistFind_isSome_of_mem tpRef.entries (key, old) hkey
            simp only [TranslationPage.find]
            rw [hkk]
            exact hm
          have hanchOld1 : ∀ j', j' < g.maxRetry →
              g.getTpId old.keyHash j' = tpRef.tpId →
              ∃ j, j ≤ j' ∧ g.getTpId old.keyHash j = g.getTpId old.keyHash j' ∧
                ∀ i, i ≤ j → g.slotMat old.keyHash i = true := by
            intro j' hj htid
            refine hInv1.2.2 old.keyHash j' hj ?_
            simp only [GMD.slotHasKey]
            rw [htid, hget1]
            exact holdfind
          have hanchOldS := anchor_grows g (g.setTp tp) (gmdGrows_of_evolve _ _ hevS)
            old.keyHash tpRef.tpId hanchOld1
          obtain ⟨pc, gc⟩ := convertToRegular_probeInv P _ tpRef old s₃ hcv hInvS
            hsomeS hanchOldS
          have hsome3 : (s₃.gmd.getTp tpRef.tpId).isSome = true := gc.2.2 _ hsomeS
          have hpt3 : probeTo s₃.gmd kh tpRef.tpId j0 := probeTo_grows _ _ gc _ _ _ hptS
          split at h
          · rcases hb3 : s₃.gmd.getTp tpRef.tpId with _ | told3
            · rw [hb3] at hsome3
              simp at hsome3
            · exact putInlineFinish_keyAnchored _ tpRef told3 kh ks vs _ _ s' h hb3
                (pc.1 _ _ hb3) j0 hpt3
          · exact putRegular_inserted P _ kh ks vs s' h pc

theorem put_inserted {σ : Type} (P : Policy σ) (s : KVState σ)
    (kh ks vs : Nat) (s' : KVState σ)
    (h : KVState.put P s kh ks vs = .ok (true, s'))
    (hInv : s.gmd.probeInv) : s'.gmd.keyAnchored kh := by
  unfold KVState.put at h
  dsimp only at h
  split at h <;>
  · rw [exbind_ok_iff] at h
    obtain ⟨⟨inserted, s₅⟩, hpi, h⟩ := h
    dsimp only at h
    split at h
    · rw [exbind_ok_iff] at h
      obtain ⟨⟨r, s₆⟩, hgc, h⟩ := h
      dsimp only at h
      injection h with h'
      injection h' with h1 h2
      subst h2; subst h1
      refine keyAnchored_keysEq _ _ (gmdKeysEq_gcRun _ _ _ _ _ hgc) kh ?_
      first
      | exact putInline_inserted _ _ kh ks vs s₅ hpi (by
          simp only [gmd_freeOldEntry]
          exact hInv)
      | exact putRegular_inserted _ _ kh ks vs s₅ hpi (by
          simp only [gmd_freeOldEntry]
          exact hInv)
    · injection h with h'
      injection h' with h1 h2
      subst h2; subst h1
      first
      | exact putInline_inserted _ _ kh ks vs _ hpi (by
          simp only [gmd_freeOldEntry]
          exact hInv)
      | exact putRegular_inserted _ _ kh ks vs _ hpi (by
          simp only [gmd_freeOldEntry]
          exact hInv)

theorem get_found_true {σ : Type} (P : Policy σ) (s : KVState σ)
    (kh : Nat) (b : Bool) (s' : KVState σ)
    (h : KVState.get P s kh = .ok (b, s'))
    (hka : s.gmd.keyAnchored kh) : b = true := by
  unfold KVState.get at h
  dsimp only at h
  rcases hcl : CMT.lookup _ kh with ⟨hit, cmt⟩
  rw [hcl] at h
  dsimp only at h
  cases hit with
  | some e =>
    split at h
    · injection h with h'
      injection h' with h1 h2
      exact h1.symm
    · contradiction
  | none =>
    dsimp only at h
    obtain ⟨j0, hj0lt, hkey, hpre⟩ := hka
    have hsome : (s.gmd.findEntry kh).isSome = true := by
      unfold GMD.findEntry
      exact findEntryFrom_succeeds s.gmd kh s.gmd.maxRetry 0 j0 (Nat.zero_le j0)
        (by omega) (fun i _ hi => hpre i hi) hkey
    rcases hfe : GMD.findEntry s.gmd kh with _ | te
    · rw [hfe] at hsome
      simp at hsome
    · rcases te with ⟨t, e⟩
      rw [hfe] at h
      dsimp only at h
      split at h
      · injection h with h'
        injection h' with h1 h2
        exact h1.symm
      · split at h
        · exact absurd h (by simp)
        · injection h with h'
          injection h' with h1 h2
          exact h1.symm

/-- C3 (amended): from every reachable state, put(k, vs1); put(k, vs2);
get(k) returns true provided the second put actually inserts its entry
(returns true) and the operations complete without error; uniqueness of
the key's entry does not hold in general (see the counterexample). -/
theorem c3_overwrite_roundtrip {σ : Type} (P : Policy σ) (cfg : SSDConfig) (pol : σ)
    (s s1 s2 s3 : KVState σ) (kh ks1 vs1 ks2 vs2 : Nat) (b1 b3 : Bool)
    (hr : Reachable P (initKV cfg pol) s)
    (h1 : s.put P kh ks1 vs1 = .ok (b1, s1))
    (h2 : s1.put P kh ks2 vs2 = .ok (true, s2))
    (h3 : s2.get P kh = .ok (b3, s3)) :
    b3 = true := by
  have hInv : s.gmd.probeInv := reachable_probeInv P cfg pol s hr
  have hInv1 : s1.gmd.probeInv := put_probeInv P s kh ks1 vs1 b1 s1 h1 hInv
  have hka : s2.gmd.keyAnchored kh := put_inserted P s1 kh ks2 vs2 s2 h2 hInv1
  exact get_found_true P s2 kh b3 s3 h3 hka

theorem c3_overwrite_roundtrip_witness :
    KVState.get (baselinePolicy 8) c3W2 5 = .ok (true, c3W3) ∧ (true : Bool) = true :=
  ⟨rfl,
   c3_overwrite_roundtrip (baselinePolicy 8) cfgTiny () (initKV cfgTiny ())
     c3W1 c3W2 c3W3 5 4 100 4 100 true true Reachable.refl rfl rfl rfl⟩

end KVEmu
